import Mathlib

/-!
Shallow embedding of the physics_studio simulation-and-render core
(src/physics_studio), over exact rational arithmetic.

Conventions used throughout:
* Python floats are modelled as rationals; float operations whose exact
  value is irrational (np.sqrt, math.tan) are passed in as explicit
  function parameters, and every concrete evaluation in this file only
  applies them at points where the float result is exact (perfect squares,
  or values at which the theorem is independent of the parameter).
* SHA-256 digests (core/determinism/hashing.py) are modelled by an
  abstract hash-function parameter: no claim below depends on the
  internals of SHA-256, only on it being a fixed function.
* Python exceptions are modelled with Except: a KeyError aborting
  run_simulation becomes Except.error.
-/

/-- A 3-vector of rationals, modelling a row of a float64 numpy array of
shape (n, 3). -/
structure Vec3 where
  x : ℚ
  y : ℚ
  z : ℚ
deriving DecidableEq, Repr

namespace Vec3

def zero : Vec3 := ⟨0, 0, 0⟩

def add (a b : Vec3) : Vec3 := ⟨a.x + b.x, a.y + b.y, a.z + b.z⟩

def sub (a b : Vec3) : Vec3 := ⟨a.x - b.x, a.y - b.y, a.z - b.z⟩

def smul (c : ℚ) (a : Vec3) : Vec3 := ⟨c * a.x, c * a.y, c * a.z⟩

def neg (a : Vec3) : Vec3 := ⟨-a.x, -a.y, -a.z⟩

/-- Dot product, modelling np.dot on 3-vectors. -/
def dot (a b : Vec3) : ℚ := a.x * b.x + a.y * b.y + a.z * b.z

/-- Elementwise division by a scalar, modelling a numpy row divided by a
mass (division by zero yields zero in ℚ; the sources assume positive
masses, see spec section 7). -/
def divScalar (a : Vec3) (c : ℚ) : Vec3 := ⟨a.x / c, a.y / c, a.z / c⟩

instance : Add Vec3 := ⟨add⟩
instance : Sub Vec3 := ⟨sub⟩
instance : Neg Vec3 := ⟨neg⟩

theorem add_def (a b : Vec3) : a + b = ⟨a.x + b.x, a.y + b.y, a.z + b.z⟩ := rfl

theorem sub_def (a b : Vec3) : a - b = ⟨a.x - b.x, a.y - b.y, a.z - b.z⟩ := rfl

end Vec3

/-- Python round() on a float (round half to even), modelling
`int(round(x))` as used by build_schedule and sample_index. -/
def pyRound (q : ℚ) : ℤ :=
  let f : ℤ := ⌊q⌋
  let r : ℚ := q - (f : ℚ)
  if r < 1/2 then f
  else if 1/2 < r then f + 1
  else if f % 2 = 0 then f else f + 1

/-- Python int() truncation toward zero on a float, as used by
_draw_line's endpoint conversion in renderer.py. -/
def pyTrunc (q : ℚ) : ℤ := Int.tdiv q.num (q.den : ℤ)

/-- A rational square root used to instantiate the abstract sqrt
parameter at concrete inputs: exact whenever the argument is the square
of a rational with perfect-square numerator and denominator, which holds
for every concrete evaluation in this file, where it then agrees with
np.sqrt exactly. -/
def sqrtQ (q : ℚ) : ℚ := (Nat.sqrt q.num.toNat : ℚ) / (Nat.sqrt q.den : ℚ)

/-! ## Events (core/events/models.py) -/

/-- Tagged event variants from core/events/models.py: Impulse,
ThrustChange, CameraMarker, each with an id and a continuous time. -/
inductive Event where
  | impulse (id : String) (time : ℚ) (body_id : String) (delta_v : Vec3)
  | thrustChange (id : String) (time : ℚ) (body_id : String) (thrust : Vec3)
  | cameraMarker (id : String) (time : ℚ) (label : String)
deriving DecidableEq, Repr

namespace Event

def id : Event → String
  | impulse i _ _ _ => i
  | thrustChange i _ _ _ => i
  | cameraMarker i _ _ => i

def time : Event → ℚ
  | impulse _ t _ _ => t
  | thrustChange _ t _ _ => t
  | cameraMarker _ t _ => t

end Event

/-- The body id an event dereferences when applied: Impulse and
ThrustChange look their body_id up in id_to_index; CameraMarker touches
no body. -/
def eventBodyId? : Event → Option String
  | Event.impulse _ _ body_id _ => some body_id
  | Event.thrustChange _ _ body_id _ => some body_id
  | Event.cameraMarker _ _ _ => none

/-! ## Event schedule (core/events/schedule.py) -/

/-- Step index an event discretizes to: `int(round(event.time / dt))`
from build_schedule. -/
def eventStepIndex (e : Event) (dt : ℚ) : ℤ := pyRound (e.time / dt)

/-- The ordered event list for one step index, modelling
`build_schedule(events, dt).events_at(k)`: build_schedule groups events
by step index into a dict (groups keep insertion order) and then sorts
each group by event id ascending with the stable list sort, which is
extensionally the same as filtering the original list and stable-sorting
the filtered list by id. -/
def events_at (events : List Event) (dt : ℚ) (k : ℤ) : List Event :=
  (events.filter (fun e => eventStepIndex e dt = k)).mergeSort
    (fun a b => a.id ≤ b.id)

/-! ## Configuration (core/run/config.py, core/forces/settings.py) -/

/-- GravitySettings from core/forces/settings.py. -/
structure GravitySettings where
  G : ℚ
  softening : ℚ
deriving DecidableEq, Repr

/-- SimulationConfig from core/run/config.py (steps is a nonnegative
integer; every claim below assumes steps > 0). -/
structure SimulationConfig where
  dt : ℚ
  steps : ℕ
  gravity : GravitySettings
  drag_coefficient : ℚ
  record_hashes : Bool
deriving DecidableEq, Repr

/-! ## Forces (core/forces/gravity.py, drag.py, thrust.py) -/

/-- One unordered-pair contribution of compute_gravity_acceleration:
given the accumulator, add `+force*masses[j]` at row i and
`-force*masses[i]` at row j, where force = G * r / d^1.5 and the guard
skips pairs with d^2 = 0. -/
def gravityPairStep (sqrtFn : ℚ → ℚ) (positions : List Vec3) (masses : List ℚ)
    (s : GravitySettings) (accel : List Vec3) (i j : ℕ) : List Vec3 :=
  let r := (positions.getD j Vec3.zero) - (positions.getD i Vec3.zero)
  let dist_sq := Vec3.dot r r + s.softening * s.softening
  if dist_sq = 0 then accel
  else
    let inv_dist := 1 / sqrtFn dist_sq
    let inv_dist3 := inv_dist * inv_dist * inv_dist
    let force := Vec3.smul (s.G * inv_dist3) r
    let accel := accel.set i ((accel.getD i Vec3.zero) +
      Vec3.smul (masses.getD j 0) force)
    accel.set j ((accel.getD j Vec3.zero) -
      Vec3.smul (masses.getD i 0) force)

/-- compute_gravity_acceleration from core/forces/gravity.py: iterate
over all pairs i < j in ascending order (the source's inner loop
`range(i+1, count)` is rendered as a full range with an i < j guard,
visiting exactly the same (i, j) pairs in the same order), accumulate
pairwise numerators, then divide every row by its own mass. -/
def compute_gravity_acceleration (sqrtFn : ℚ → ℚ) (positions : List Vec3)
    (masses : List ℚ) (s : GravitySettings) : List Vec3 :=
  let count := positions.length
  if count = 0 then [] else
  let accel0 : List Vec3 := List.replicate count Vec3.zero
  let accel := (List.range count).foldl (fun acc i =>
    (List.range count).foldl (fun acc j =>
      if i < j then gravityPairStep sqrtFn positions masses s acc i j
      else acc) acc) accel0
  accel.zipWith (fun a m => Vec3.divScalar a m) masses

/-- compute_linear_drag_acceleration from core/forces/drag.py. -/
def compute_linear_drag_acceleration (velocities : List Vec3)
    (drag_coefficient : ℚ) : List Vec3 :=
  if drag_coefficient ≤ 0 then List.replicate velocities.length Vec3.zero
  else velocities.map (fun v => Vec3.smul (-drag_coefficient) v)

/-- compute_thrust_acceleration from core/forces/thrust.py. -/
def compute_thrust_acceleration (thrusts : List Vec3) (masses : List ℚ) :
    List Vec3 :=
  if thrusts.length = 0 then []
  else thrusts.zipWith (fun t m => Vec3.divScalar t m) masses

/-! ## Integrator (core/integrators/semi_implicit_euler.py) -/

/-- One semi-implicit Euler step: velocities += accelerations * dt, then
positions += (updated) velocities * dt. -/
def eulerStep (positions velocities accelerations : List Vec3) (dt : ℚ) :
    List Vec3 × List Vec3 :=
  let velocities := velocities.zipWith (fun v a => v + Vec3.smul dt a)
    accelerations
  let positions := positions.zipWith (fun p v => p + Vec3.smul dt v)
    velocities
  (positions, velocities)

/-! ## State model (core/state/models.py, simulator._collect_bodies) -/

/-- The per-body fields _collect_bodies extracts (id, mass, position,
velocity, thrust); particle and rigid-body variants are dynamically
identical for the core (spec section 3), so SystemState.all_bodies() is
modelled as one flat list. -/
structure BodyData where
  id : String
  mass : ℚ
  position : Vec3
  velocity : Vec3
  thrust : Vec3
deriving DecidableEq, Repr

/-- A SystemState: the ordered collection of bodies
(particles ++ rigid_bodies). -/
structure SystemState where
  bodies : List BodyData
deriving DecidableEq, Repr

/-- Python-dict insertion: if the key is present its value is replaced in
place, otherwise the pair is appended. -/
def dictInsert (acc : List BodyData) (b : BodyData) : List BodyData :=
  if acc.any (fun a => a.id = b.id) then
    acc.map (fun a => if a.id = b.id then b else a)
  else acc ++ [b]

/-- _collect_bodies from core/run/simulator.py: a dict keyed by body id,
in first-occurrence insertion order, later duplicates overwriting. -/
def collectBodies (state : SystemState) : List BodyData :=
  state.bodies.foldl dictInsert []

/-- build_body_order from core/run/trajectory.py: lexicographically
sorted body ids. -/
def build_body_order (ids : List String) : List String :=
  ids.mergeSort (fun a b => a ≤ b)

/-! ## Trajectory (core/run/trajectory.py) -/

/-- Trajectory from core/run/trajectory.py: parallel sequences of
recorded times, position snapshots and velocity snapshots in the fixed
body-id column order. -/
structure Trajectory where
  body_ids : List String
  times : List ℚ
  positions : List (List Vec3)
  velocities : List (List Vec3)
deriving DecidableEq, Repr

/-- Trajectory.record: append one sample to all three sequences. -/
def Trajectory.record (t : Trajectory) (time : ℚ) (positions velocities : List Vec3) :
    Trajectory :=
  { t with
    times := t.times ++ [time]
    positions := t.positions ++ [positions]
    velocities := t.velocities ++ [velocities] }

/-! ## Simulation driver (core/run/simulator.py) -/

/-- A recorded camera marker {"time": event.time, "label": event.label}. -/
structure CameraMarker where
  time : ℚ
  label : String
deriving DecidableEq, Repr

/-- SimulationResult from core/run/simulator.py. -/
structure SimulationResult where
  trajectory : Trajectory
  hashes : List String
  camera_markers : List CameraMarker
deriving DecidableEq, Repr

/-- Mutable per-run arrays of the driver loop (positions, velocities,
thrusts in fixed column order; masses never change). -/
structure SimArrays where
  positions : List Vec3
  velocities : List Vec3
  thrusts : List Vec3
deriving DecidableEq, Repr

/-- Apply one scheduled event, modelling the event branch of the driver
loop; `idIdx` is the id_to_index dict, and a lookup failure (Python
KeyError) aborts with Except.error. -/
def applyEvent (idIdx : String → Option ℕ)
    (st : SimArrays × List CameraMarker) (e : Event) :
    Except String (SimArrays × List CameraMarker) :=
  match e with
  | Event.impulse _ _ body_id delta_v =>
    match idIdx body_id with
    | none => Except.error ("KeyError: " ++ body_id)
    | some idx =>
      let newV := (st.1.velocities.getD idx Vec3.zero) + delta_v
      Except.ok ({ st.1 with velocities := st.1.velocities.set idx newV }, st.2)
  | Event.thrustChange _ _ body_id thrust =>
    match idIdx body_id with
    | none => Except.error ("KeyError: " ++ body_id)
    | some idx =>
      Except.ok ({ st.1 with thrusts := st.1.thrusts.set idx thrust }, st.2)
  | Event.cameraMarker _ time label =>
    Except.ok (st.1, st.2 ++ [{ time := time, label := label }])

/-- Apply all scheduled events of one step in schedule order (the
`for event in schedule.events_at(step_index)` loop), stopping at the
first lookup failure, whose KeyError propagates. -/
def applyEvents (idIdx : String → Option ℕ) :
    List Event → SimArrays × List CameraMarker →
    Except String (SimArrays × List CameraMarker)
  | [], st => Except.ok st
  | e :: rest, st =>
    match applyEvent idIdx st e with
    | Except.error msg => Except.error msg
    | Except.ok st2 => applyEvents idIdx rest st2

/-- Total acceleration and one integration step of the driver loop
(steps e and f of spec section 4.5). -/
def advanceArrays (sqrtFn : ℚ → ℚ) (config : SimulationConfig)
    (masses : List ℚ) (st : SimArrays) : SimArrays :=
  let gravity := compute_gravity_acceleration sqrtFn st.positions masses
    config.gravity
  let thrust := compute_thrust_acceleration st.thrusts masses
  let drag := compute_linear_drag_acceleration st.velocities
    config.drag_coefficient
  let acceleration := (gravity.zipWith (fun a b => a + b) thrust).zipWith
    (fun a b => a + b) drag
  let pv := eulerStep st.positions st.velocities acceleration config.dt
  { st with positions := pv.1, velocities := pv.2 }

/-- Accumulated outputs of the driver loop. -/
structure SimAcc where
  trajectory : Trajectory
  hashes : List String
  markers : List CameraMarker
deriving DecidableEq, Repr

/-- Steps a and b of one driver iteration (spec section 4.5): append the
state hash when hashing is enabled, and append the current time,
positions and velocities to the trajectory. -/
def recordAcc (hashFn : ℕ → List Vec3 → List Vec3 → String)
    (config : SimulationConfig) (step_index : ℕ) (st : SimArrays)
    (acc : SimAcc) : SimAcc :=
  { acc with
    hashes := if config.record_hashes then
      acc.hashes ++ [hashFn step_index st.positions st.velocities]
      else acc.hashes,
    trajectory := acc.trajectory.record ((step_index : ℚ) * config.dt)
      st.positions st.velocities }

/-- The driver loop `for step_index in range(steps + 1)` of
run_simulation, as recursion on the number of remaining steps
(remaining = steps - step_index): record hash and trajectory sample,
break when step_index == steps, otherwise apply the step's scheduled
events, compute accelerations, integrate, and continue. `hashFn` models
hash_state. -/
def simLoop (sqrtFn : ℚ → ℚ) (hashFn : ℕ → List Vec3 → List Vec3 → String)
    (config : SimulationConfig) (masses : List ℚ)
    (eventsAtFn : ℤ → List Event) (idIdx : String → Option ℕ) :
    (remaining : ℕ) → (step_index : ℕ) → SimArrays → SimAcc →
    Except String SimAcc
  | 0, step_index, st, acc =>
    Except.ok (recordAcc hashFn config step_index st acc)
  | r + 1, step_index, st, acc =>
    let acc2 := recordAcc hashFn config step_index st acc
    match applyEvents idIdx (eventsAtFn (step_index : ℤ)) (st, acc2.markers) with
    | Except.error msg => Except.error msg
    | Except.ok stm =>
      simLoop sqrtFn hashFn config masses eventsAtFn idIdx r
        (step_index + 1) (advanceArrays sqrtFn config masses stm.1)
        { acc2 with markers := stm.2 }

/-- run_simulation from core/run/simulator.py. The numpy backend is a
fixed module; `sqrtFn` models np.sqrt and `hashFn` models hash_state
(SHA-256 over step index, positions, velocities), both abstract because
no claim depends on their internal values. -/
def run_simulation (sqrtFn : ℚ → ℚ)
    (hashFn : ℕ → List Vec3 → List Vec3 → String)
    (state : SystemState) (events : List Event) (config : SimulationConfig) :
    Except String SimulationResult :=
  let body_data := collectBodies state
  let order := build_body_order (body_data.map (fun b => b.id))
  let lookup := fun bid => (body_data.filter (fun b => b.id = bid)).headD
    ⟨bid, 0, Vec3.zero, Vec3.zero, Vec3.zero⟩
  let st : SimArrays :=
    { positions := order.map (fun bid => (lookup bid).position),
      velocities := order.map (fun bid => (lookup bid).velocity),
      thrusts := order.map (fun bid => (lookup bid).thrust) }
  let masses := order.map (fun bid => (lookup bid).mass)
  let idIdx := fun bid => order.findIdx? (fun o => o = bid)
  let traj0 : Trajectory :=
    { body_ids := order, times := [], positions := [], velocities := [] }
  let acc0 : SimAcc := { trajectory := traj0, hashes := [], markers := [] }
  (simLoop sqrtFn hashFn config masses
      (fun k => events_at events config.dt k) idIdx config.steps 0 st acc0).map
    (fun acc =>
      { trajectory := acc.trajectory, hashes := acc.hashes,
        camera_markers := acc.markers })

/-- Total momentum: the sum over bodies of mass times velocity. -/
def totalMomentum (masses : List ℚ) (velocities : List Vec3) : Vec3 :=
  (masses.zipWith (fun m v => Vec3.smul m v) velocities).foldl
    (fun a b => a + b) Vec3.zero

/-! ## Trajectory sampling (render/sampling.py) -/

/-- sample_index from render/sampling.py: clamped index sampling. -/
def sample_index (time_s dt : ℚ) (sample_every num_samples : ℤ) : ℤ :=
  if num_samples ≤ 0 then 0
  else
    let step := dt * ((max sample_every 1 : ℤ) : ℚ)
    if step ≤ 0 then 0
    else
      let raw_index := pyRound (time_s / step)
      max 0 (min raw_index (num_samples - 1))

/-- Per-axis linear interpolation `left[axis] + (right[axis] - left[axis]) * t`,
shared by sample_trajectory and CameraTrack.evaluate. -/
def lerpVec (left right : Vec3) (t : ℚ) : Vec3 :=
  ⟨left.x + (right.x - left.x) * t,
   left.y + (right.y - left.y) * t,
   left.z + (right.z - left.z) * t⟩

/-- The index scan of sample_trajectory,
`for idx in range(1, len(times)): if times[idx] >= time_s`, returning
the first index at or after `start` whose recorded time is at least the
query time. -/
def bracketScan (time_s : ℚ) : ℕ → List ℚ → Option ℕ
  | _, [] => none
  | start, t :: rest =>
    if time_s ≤ t then some start else bracketScan time_s (start + 1) rest

/-- One interpolated row of sample_trajectory: positions at idx-1 and
idx blended per body and axis with the floor-guarded fraction. -/
def interpRow (traj : Trajectory) (time_s : ℚ) (idx : ℕ) : List Vec3 :=
  let left_t := traj.times.getD (idx - 1) 0
  let right_t := traj.times.getD idx 0
  let t := (time_s - left_t) / max (right_t - left_t) (1/1000000000)
  let left := traj.positions.getD (idx - 1) []
  let right := traj.positions.getD idx []
  left.zipWith (fun lb rb => lerpVec lb rb t) right

/-- sample_trajectory from render/sampling.py. The source scans indices
1..len(times)-1 for the first index with times[idx] >= time_s; in the
branch where the scan runs, time_s > times[0], so index 0 can never
satisfy the predicate and scanning the whole list from index 0 locates
the same index. -/
def sample_trajectory (traj : Trajectory) (time_s : ℚ) : List Vec3 :=
  if traj.times.isEmpty then []
  else if time_s ≤ traj.times.headD 0 then traj.positions.headD []
  else if traj.times.getLastD 0 ≤ time_s then traj.positions.getLastD []
  else
    match bracketScan time_s 0 traj.times with
    | some idx => interpRow traj time_s idx
    | none => traj.positions.getLastD []

/-! ## Camera track (scenario/models.py) -/

/-- CameraKeyframe from scenario/models.py (fov_deg is an optional
override). -/
structure CameraKeyframe where
  time_s : ℚ
  position : Vec3
  target : Vec3
  fov_deg : Option ℚ
deriving DecidableEq, Repr

/-- CameraState from scenario/models.py: the resolved pose at a queried
time. -/
structure CameraState where
  position : Vec3
  target : Vec3
  fov_deg : ℚ
deriving DecidableEq, Repr

/-- CameraTrack from scenario/models.py. -/
structure CameraTrack where
  keyframes : List CameraKeyframe
  default_fov_deg : ℚ
deriving DecidableEq, Repr

/-- CameraTrack._state_from_keyframe: the keyframe pose with the track
default substituted for an unset fov. -/
def stateFromKeyframe (track : CameraTrack) (k : CameraKeyframe) : CameraState :=
  ⟨k.position, k.target, k.fov_deg.getD track.default_fov_deg⟩

/-- The bracketing-pair scan of CameraTrack.evaluate:
`for left, right in zip(ordered, ordered[1:])`, returning the first
consecutive pair with left.time_s <= time_s <= right.time_s. -/
def pairScan : List CameraKeyframe → ℚ → Option (CameraKeyframe × CameraKeyframe)
  | a :: b :: rest, t =>
    if a.time_s ≤ t ∧ t ≤ b.time_s then some (a, b) else pairScan (b :: rest) t
  | _, _ => none

/-- A placeholder keyframe for total getD access; never reached, since
every access below is guarded by nonemptiness of the keyframe list. -/
def dummyKeyframe : CameraKeyframe := ⟨0, Vec3.zero, Vec3.zero, none⟩

/-- The `ordered = sorted(self.keyframes, key=lambda k: k.time_s)` step
of evaluate: a stable sort by time that never mutates the stored
keyframe list (the model is pure throughout). -/
def sortedKeyframes (track : CameraTrack) : List CameraKeyframe :=
  track.keyframes.mergeSort (fun a b => a.time_s ≤ b.time_s)

/-- CameraTrack.evaluate from scenario/models.py: default state when
there are no keyframes; otherwise stable-sort by time (Python sorted(),
which never mutates the stored list — the model is pure throughout),
clamp-hold at the ends, and linearly interpolate position, target and
fov inside the first bracketing pair. -/
def CameraTrack.evaluate (track : CameraTrack) (time_s : ℚ) : CameraState :=
  if track.keyframes.isEmpty then ⟨⟨0, 0, 50⟩, ⟨0, 0, 0⟩, 60⟩
  else
    let ordered := sortedKeyframes track
    if time_s ≤ (ordered.headD dummyKeyframe).time_s then
      stateFromKeyframe track (ordered.headD dummyKeyframe)
    else if (ordered.getLastD dummyKeyframe).time_s ≤ time_s then
      stateFromKeyframe track (ordered.getLastD dummyKeyframe)
    else
      match pairScan ordered time_s with
      | some (left, right) =>
        let t := (time_s - left.time_s) /
          max (right.time_s - left.time_s) (1/1000000000)
        let left_fov := left.fov_deg.getD track.default_fov_deg
        let right_fov := right.fov_deg.getD track.default_fov_deg
        ⟨lerpVec left.position right.position t,
         lerpVec left.target right.target t,
         left_fov + (right_fov - left_fov) * t⟩
      | none => stateFromKeyframe track (ordered.getLastD dummyKeyframe)

/-! ## Renderer (render/renderer.py) -/

/-- An RGB pixel; writes store byte values 0..255 (the first three
SHA-256 digest bytes of the body id, or 255 for the timecode). -/
def Color : Type := ℕ × ℕ × ℕ

instance : DecidableEq Color := instDecidableEqProd

/-- A fixed-size RGB pixel buffer np.zeros((height, width, 3)), row
major: the outer list is rows (y), the inner lists are pixels (x). -/
def Image : Type := List (List Color)

instance : DecidableEq Image := instDecidableEqList

/-- Bounds-checked pixel write `image[y, x] = color`; every primitive in
renderer.py guards its writes with exactly this bounds check, factored
here. -/
def writePixel (img : Image) (x y : ℤ) (c : Color) : Image :=
  if 0 ≤ y ∧ y < (img.length : ℤ) then
    let row := img.getD y.toNat []
    if 0 ≤ x ∧ x < (row.length : ℤ) then img.set y.toNat (row.set x.toNat c)
    else img
  else img

/-- The all-black buffer np.zeros((height, width, 3), dtype=np.uint8). -/
def zerosImage (height width : ℕ) : Image :=
  List.replicate height (List.replicate width (0, 0, 0))

/-- Python range(a, b) over integers. -/
def intRange (a b : ℤ) : List ℤ := (List.range (b - a).toNat).map (fun k => a + k)

/-- _draw_circle from render/renderer.py: scan the bounding box and keep
pixels with squared distance at most radius squared. -/
def draw_circle (img : Image) (cx cy radius : ℤ) (color : Color) : Image :=
  (intRange (cy - radius) (cy + radius + 1)).foldl (fun img y =>
    (intRange (cx - radius) (cx + radius + 1)).foldl (fun img x =>
      if (x - cx) * (x - cx) + (y - cy) * (y - cy) ≤ radius * radius then
        writePixel img x y color
      else img) img) img

/-- The while-loop of _draw_line, with an explicit fuel upper bound on
the iteration count (Bresenham stepping moves x0 or y0 one unit toward
the fixed target every iteration before the terminating one, so
dx - dy + 1 iterations always suffice; every concrete evaluation below
stays far below the bound). -/
def drawLineLoop (c : Color) (x1 y1 dx dy sx sy : ℤ) :
    ℕ → Image → ℤ → ℤ → ℤ → Image
  | 0, img, _, _, _ => img
  | fuel + 1, img, x0, y0, err =>
    let img := writePixel img x0 y0 c
    if x0 = x1 ∧ y0 = y1 then img
    else
      let e2 := 2 * err
      let xe := if e2 ≥ dy then (x0 + sx, err + dy) else (x0, err)
      let ye := if e2 ≤ dx then (y0 + sy, xe.2 + dx) else (y0, xe.2)
      drawLineLoop c x1 y1 dx dy sx sy fuel img xe.1 ye.1 ye.2

/-- _draw_line from render/renderer.py (integer Bresenham stepping). -/
def draw_line (img : Image) (x0 y0 x1 y1 : ℤ) (c : Color) : Image :=
  let dx := |x1 - x0|
  let dy := -|y1 - y0|
  let sx : ℤ := if x0 < x1 then 1 else -1
  let sy : ℤ := if y0 < y1 then 1 else -1
  let err := dx + dy
  drawLineLoop c x1 y1 dx dy sx sy (dx - dy + 1).toNat img x0 y0 err

/-- The 3x5 bitmap glyph rows of the _FONT table in render/renderer.py
(uppercase letters all share one block glyph added by the module-level
loop). -/
def fontGlyph (ch : Char) : Option (List String) :=
  match ch with
  | '0' => some ["111", "101", "101", "101", "111"]
  | '1' => some ["010", "110", "010", "010", "111"]
  | '2' => some ["111", "001", "111", "100", "111"]
  | '3' => some ["111", "001", "111", "001", "111"]
  | '4' => some ["101", "101", "111", "001", "001"]
  | '5' => some ["111", "100", "111", "001", "111"]
  | '6' => some ["111", "100", "111", "101", "111"]
  | '7' => some ["111", "001", "001", "001", "001"]
  | '8' => some ["111", "101", "111", "101", "111"]
  | '9' => some ["111", "101", "111", "001", "111"]
  | ':' => some ["000", "010", "000", "010", "000"]
  | '.' => some ["000", "000", "000", "010", "000"]
  | '-' => some ["000", "000", "111", "000", "000"]
  | '_' => some ["000", "000", "000", "000", "111"]
  | '?' => some ["111", "001", "011", "000", "010"]
  | _ =>
    if 'A' ≤ ch ∧ ch ≤ 'Z' then some ["111", "101", "111", "101", "101"]
    else none

/-- _draw_glyph from render/renderer.py. -/
def draw_glyph (img : Image) (x y : ℤ) (glyph : List String) (c : Color) :
    Image :=
  glyph.enum.foldl (fun img rowLine =>
    rowLine.2.toList.enum.foldl (fun img colBit =>
      if colBit.2 ≠ '1' then img
      else writePixel img (x + colBit.1) (y + rowLine.1) c) img) img

/-- _draw_text from render/renderer.py: render each character's glyph,
advancing the cursor by 4 pixels; unknown characters fall back to the
placeholder glyph. -/
def draw_text (img : Image) (x y : ℤ) (text : String) (c : Color) : Image :=
  (text.toList.foldl (fun (acc : Image × ℤ) ch =>
    let glyph := (fontGlyph ch).getD
      ((fontGlyph '?').getD ["000", "000", "000", "000", "000"])
    (draw_glyph acc.1 acc.2 y glyph c, acc.2 + 4)) (img, x)).1

/-- Cross product np.cross on 3-vectors. -/
def crossVec (a b : Vec3) : Vec3 :=
  ⟨a.y * b.z - a.z * b.y, a.z * b.x - a.x * b.z, a.x * b.y - a.y * b.x⟩

/-- np.allclose(v, 0.0) with numpy defaults: every component within
absolute tolerance 1e-8 of zero. -/
def npAllClose0 (v : Vec3) : Bool :=
  decide (|v.x| ≤ (1 : ℚ)/100000000) && decide (|v.y| ≤ (1 : ℚ)/100000000) &&
    decide (|v.z| ≤ (1 : ℚ)/100000000)

/-- _normalize from render/renderer.py: divide by the Euclidean norm
(sqrtFn of the squared norm, modelling np.linalg.norm), returning the
vector unchanged when the norm is zero. -/
def normalizeVec (sqrtFn : ℚ → ℚ) (v : Vec3) : Vec3 :=
  let norm := sqrtFn (Vec3.dot v v)
  if norm = 0 then v else Vec3.divScalar v norm

/-- _camera_basis from render/renderer.py: forward toward the target
with canonical fallback, right from forward x canonical-up with
canonical fallback, up from right x forward. -/
def camera_basis (sqrtFn : ℚ → ℚ) (camera : CameraState) :
    Vec3 × Vec3 × Vec3 :=
  let forward := normalizeVec sqrtFn (camera.target - camera.position)
  let forward := if npAllClose0 forward then (⟨0, 0, -1⟩ : Vec3) else forward
  let up_guess : Vec3 := ⟨0, 0, 1⟩
  let right := normalizeVec sqrtFn (crossVec forward up_guess)
  let right := if npAllClose0 right then (⟨1, 0, 0⟩ : Vec3) else right
  let up := normalizeVec sqrtFn (crossVec right forward)
  (right, up, forward)

/-- project_points from render/renderer.py; `tanHalf` models
math.tan(math.radians(fov_deg) * 0.5) as a function of fov_deg (its
exact value is irrational; every theorem below either quantifies over it
or is independent of it). Output rows are (x_pix, y_pix, z_cam) with the
zero depth already replaced by -1e-6, exactly as np.where does before
the stack. -/
def project_points (sqrtFn tanHalf : ℚ → ℚ) (positions : List Vec3)
    (camera : CameraState) (width height : ℕ) : List (ℚ × ℚ × ℚ) :=
  let basis := camera_basis sqrtFn camera
  let scale := 1 / tanHalf camera.fov_deg
  positions.map (fun p =>
    let translated := p - camera.position
    let x_cam := Vec3.dot translated basis.1
    let y_cam := Vec3.dot translated basis.2.1
    let z_cam := Vec3.dot translated (Vec3.neg basis.2.2)
    let z_cam := if z_cam = 0 then -(1/1000000 : ℚ) else z_cam
    let x_ndc := (x_cam / z_cam) * scale
    let y_ndc := (y_cam / z_cam) * scale
    let x_pix := (x_ndc * (1/2) + 1/2) * (width : ℚ)
    let y_pix := (-y_ndc * (1/2) + 1/2) * (height : ℚ)
    (x_pix, y_pix, z_cam))

/-- RenderBody from render/renderer.py. -/
structure RenderBody where
  id : String
  position : Vec3
  radius_px : ℤ
deriving DecidableEq, Repr

/-- RenderOptions from render/renderer.py. -/
structure RenderOptions where
  width : ℕ
  height : ℕ
  show_timecode : Bool
  show_labels : Bool
  show_trails : Bool
deriving DecidableEq, Repr

/-- The trails dict (body id to world-space polyline), as an association
list. -/
def TrailMap : Type := List (String × List Vec3)

/-- The timecode label f-string "{time_s:0.2f}s"; decimal rendering of a
binary float is approximated by rounding to centiseconds in ℚ (no
theorem below depends on this text). -/
def fmt2s (q : ℚ) : String :=
  let cents := pyRound (q * 100)
  let intPart := cents / 100
  let frac := (cents % 100).toNat
  toString intPart ++ "." ++ (if frac < 10 then "0" else "") ++ toString frac
    ++ "s"

/-- The trail pass of render_frame for one body: look the body id up in
the trails dict (skip when absent), project the polyline, and draw every
consecutive segment with no depth test, endpoints converted with int()
truncation. -/
def drawTrailStep (sqrtFn tanHalf : ℚ → ℚ) (colorOf : String → Color)
    (camera : CameraState) (options : RenderOptions) (trailsList : TrailMap)
    (img : Image) (body : RenderBody) : Image :=
  match trailsList.find? (fun p => p.1 == body.id) with
  | none => img
  | some pair =>
    let trail_proj := project_points sqrtFn tanHalf pair.2 camera
      options.width options.height
    let color := colorOf body.id
    (trail_proj.zip trail_proj.tail).foldl (fun img ab =>
      draw_line img (pyTrunc ab.1.1) (pyTrunc ab.1.2.1)
        (pyTrunc ab.2.1) (pyTrunc ab.2.2.1) color) img

/-- The marker pass of render_frame for one (body, projected) pair: skip
the body entirely when its depth is nonpositive (`if proj[2] <= 0:
continue`), otherwise draw the filled circle and, when labels are
enabled, the uppercased id text. -/
def drawMarkerStep (colorOf : String → Color) (options : RenderOptions)
    (img : Image) (bp : RenderBody × (ℚ × ℚ × ℚ)) : Image :=
  if bp.2.2.2 ≤ 0 then img
  else
    let x := pyRound bp.2.1
    let y := pyRound bp.2.2.1
    let color := colorOf bp.1.id
    let img := draw_circle img x y bp.1.radius_px color
    if options.show_labels then
      draw_text img (x + bp.1.radius_px + 2) (y - 6) bp.1.id.toUpper color
    else img

/-- render_frame from render/renderer.py; `colorOf` models
_color_from_id (the first three SHA-256 digest bytes of the body id),
abstract because no geometric claim depends on the digest values. Trail
polylines, when enabled and nonempty, are drawn first without any depth
test; markers and labels are drawn only for bodies whose projected depth
is positive; the optional timecode overlay is drawn last. -/
def render_frame (sqrtFn tanHalf : ℚ → ℚ) (colorOf : String → Color)
    (bodies : List RenderBody) (camera : CameraState)
    (options : RenderOptions) (time_s : Option ℚ) (trails : Option TrailMap) :
    Image :=
  let image := zerosImage options.height options.width
  if bodies.isEmpty then image
  else
    let projected := project_points sqrtFn tanHalf
      (bodies.map (fun b => b.position)) camera options.width options.height
    let trailsList := (trails.getD [] : TrailMap)
    let image :=
      if options.show_trails ∧ ¬ trailsList.isEmpty then
        bodies.foldl
          (drawTrailStep sqrtFn tanHalf colorOf camera options trailsList)
          image
      else image
    let image := (bodies.zip projected).foldl (drawMarkerStep colorOf options)
      image
    match time_s with
    | some t =>
      if options.show_timecode then
        draw_text image 8 8 (fmt2s t).toUpper (255, 255, 255)
      else image
    | none => image

/-- Read one pixel of the buffer (black when out of bounds). -/
def getPixel (img : Image) (x y : ℕ) : Color := (img.getD y []).getD x (0, 0, 0)

/-! ## Export pipeline (render/export.py) -/

/-- The operations render_video performs on the encoder subprocess
resource, in order: spawn (subprocess.Popen with a stdin pipe), one
writeFrame per loop iteration (process.stdin.write of the frame bytes),
closeChannel (process.stdin.close), waitProc (process.wait followed by
the exit-code check). -/
inductive EncoderOp where
  | spawn
  | writeFrame (index : ℕ)
  | closeChannel
  | waitProc
deriving DecidableEq, Repr

/-- The frame loop of render_video over the given frame indices:
`frameOk i` models whether generating and writing frame i raises no
exception (sampling, camera evaluation, rasterization, stdin.write). On
the first failing frame the exception propagates: the trace stops and
the Bool is false. -/
def writeFrames (frameOk : ℕ → Bool) : List ℕ → List EncoderOp × Bool
  | [] => ([], true)
  | i :: rest =>
    if frameOk i then
      let tail := writeFrames frameOk rest
      (EncoderOp.writeFrame i :: tail.1, tail.2)
    else ([], false)

/-- The encoder-resource trace of render_video from render/export.py:
spawn, then the frame loop, and only on normal loop completion the
stdin close, the wait and the exit-code check — the source has no
try/finally around the frame loop, so an exception inside it propagates
before closeChannel and waitProc are reached. The Bool records whether
render_video returned normally. -/
def render_video_ops (frame_count : ℕ) (frameOk : ℕ → Bool) :
    List EncoderOp × Bool :=
  let frames := writeFrames frameOk (List.range frame_count)
  if frames.2 then
    (EncoderOp.spawn :: frames.1 ++ [EncoderOp.closeChannel, EncoderOp.waitProc],
      true)
  else (EncoderOp.spawn :: frames.1, false)

/-! ## Concrete instances used by the theorems below -/

/-- A hash-function instance printing the step index; any fixed function
works for the claims that mention hashes. -/
def hashIdx : ℕ → List Vec3 → List Vec3 → String := fun n _ _ => toString n

/-- Two-body state with unequal masses 1 and 2, separated along x, at
rest, zero thrust. -/
def stateTwo : SystemState :=
  ⟨[⟨"a", 1, ⟨0, 0, 0⟩, ⟨0, 0, 0⟩, ⟨0, 0, 0⟩⟩,
    ⟨"b", 2, ⟨1, 0, 0⟩, ⟨0, 0, 0⟩, ⟨0, 0, 0⟩⟩]⟩

/-- Config with dt=1, one step, G=1, no softening, no drag: the pairwise
distance is exactly 1, so np.sqrt is exact and the whole run is exact in
ℚ. -/
def cfgTwo : SimulationConfig := ⟨1, 1, ⟨1, 0⟩, 0, false⟩

/-- One-body state at rest. -/
def stateOne : SystemState := ⟨[⟨"a", 1, ⟨0, 0, 0⟩, ⟨0, 0, 0⟩, ⟨0, 0, 0⟩⟩]⟩

/-- Config with dt=1, one step, hashing enabled. -/
def cfgOne : SimulationConfig := ⟨1, 1, ⟨1, 0⟩, 0, true⟩

/-- The exact result of running stateOne under cfgOne: a single body at
rest stays at rest; two samples at times 0 and 1. -/
def resOne : SimulationResult :=
  ⟨⟨["a"], [0, 1], [[Vec3.zero], [Vec3.zero]], [[Vec3.zero], [Vec3.zero]]⟩,
    ["0", "1"], []⟩

/-- Two-body state with equal masses, used to instantiate the
momentum-conservation theorem. -/
def stateTwoEq : SystemState :=
  ⟨[⟨"a", 3, ⟨0, 0, 0⟩, ⟨0, 0, 0⟩, ⟨0, 0, 0⟩⟩,
    ⟨"b", 3, ⟨1, 0, 0⟩, ⟨0, 0, 0⟩, ⟨0, 0, 0⟩⟩]⟩

/-- Camera at the origin aimed along +x with fov 90: its basis vectors
are exact unit vectors, and every world point with x >= 0 projects to a
nonpositive z_cam. -/
def camBehind : CameraState := ⟨⟨0, 0, 0⟩, ⟨1, 0, 0⟩, 90⟩

/-- A single render body sitting at the camera target (depth -1). -/
def bodyBehind : RenderBody := ⟨"b", ⟨1, 0, 0⟩, 1⟩

/-- A two-point trail for bodyBehind, both points of nonpositive depth
(-1 and -2), projecting to pixel (2, 2) of a 4x4 frame. -/
def trailBehind : TrailMap := [("b", [⟨1, 0, 0⟩, ⟨2, 0, 0⟩])]

/-- A render body in front of camBehind (world x = -1 gives projected
depth +1), making a mixed scene together with bodyBehind. -/
def bodyFront : RenderBody := ⟨"a", ⟨-1, 0, 0⟩, 1⟩

/-- 4x4 frame, trails on, labels on, timecode off. -/
def optsTrail : RenderOptions := ⟨4, 4, false, true, true⟩

/-- 4x4 frame, trails off, labels on, timecode off. -/
def optsNoTrail : RenderOptions := ⟨4, 4, false, true, false⟩

/-- A tan-half-fov instance: at fov 90 the exact value of
1/tan(radians(90)/2) is 1; the projected pixel in the counterexample
below is independent of this value (x_cam = y_cam = 0). -/
def tanHalfOne : ℚ → ℚ := fun _ => 1

/-- The concrete _color_from_id instance for body id "b": the first
three bytes of SHA-256("b") = 3e 23 e8 ... are (62, 35, 232). -/
def colorShaB : String → Color := fun i => if i = "b" then (62, 35, 232) else (0, 0, 0)

/-- Two-keyframe track of the camera-interpolation example: t=0 at
(0,0,10) fov 60, t=10 at (10,0,10) fov 90. -/
def trackTwoKf : CameraTrack :=
  ⟨[⟨0, ⟨0, 0, 10⟩, ⟨0, 0, 0⟩, some 60⟩,
    ⟨10, ⟨10, 0, 10⟩, ⟨0, 0, 0⟩, some 90⟩], 60⟩

/-- The same track with the first keyframe's fov unset, exercising the
default-fov substitution (default 60). -/
def trackDefaultFov : CameraTrack :=
  ⟨[⟨0, ⟨0, 0, 10⟩, ⟨0, 0, 0⟩, none⟩,
    ⟨10, ⟨10, 0, 10⟩, ⟨0, 0, 0⟩, some 90⟩], 60⟩

/-- The two-sample trajectory of the continuous-interpolation example:
positions [0,0,0] at t=0 and [2,0,0] at t=1. -/
def trajLerp : Trajectory :=
  ⟨["a"], [0, 1], [[⟨0, 0, 0⟩], [⟨2, 0, 0⟩]], [[⟨0, 0, 0⟩], [⟨0, 0, 0⟩]]⟩

/-! ## Theorems -/

deriving instance DecidableEq for Except

lemma Vec3.smul_dist (c : ℚ) (a b : Vec3) :
    Vec3.smul c (a + b) = Vec3.smul c a + Vec3.smul c b := by
  simp [Vec3.smul, Vec3.add_def, mul_add]

lemma Vec3.add_comm' (a b : Vec3) : a + b = b + a := by
  simp [Vec3.add_def]
  constructor
  · ring
  constructor
  · ring
  ring

lemma Vec3.zero_add' (a : Vec3) : Vec3.zero + a = a := by
  simp [Vec3.add_def, Vec3.zero]

/-- C3: run_simulation is deterministic as a two-run property: on
identical SystemState, event list and SimulationConfig, two invocations
produce identical trajectories (times, positions and velocities in the
fixed column order), identical hash sequences, and identical
camera-marker lists. The embedded driver is a pure function of its
inputs, mirroring that the Python driver reads nothing beyond them: the
backend registry always returns the one fixed numpy backend, iteration
orders are fixed, and hash_state is a fixed function of step index and
state. -/
theorem C3_run_simulation_deterministic (sqrtFn : ℚ → ℚ)
    (hashFn : ℕ → List Vec3 → List Vec3 → String) (state : SystemState)
    (events : List Event) (config : SimulationConfig) :
    (run_simulation sqrtFn hashFn state events config).map
        (fun r => r.trajectory) =
      (run_simulation sqrtFn hashFn state events config).map
        (fun r => r.trajectory) ∧
    (run_simulation sqrtFn hashFn state events config).map (fun r => r.hashes) =
      (run_simulation sqrtFn hashFn state events config).map
        (fun r => r.hashes) ∧
    (run_simulation sqrtFn hashFn state events config).map
        (fun r => r.camera_markers) =
      (run_simulation sqrtFn hashFn state events config).map
        (fun r => r.camera_markers) :=
  ⟨rfl, rfl, rfl⟩

/-- C8: sample_index computes step = dt * max(sample_every, 1), returns
0 whenever the sample count or the step is nonpositive, and otherwise
returns round(time/step) clamped into [0, n-1]; with n=5, dt=1,
sample_every=2 it maps 0.0 to 0, 8.0 to 4, 9.0 to 4 and -1.0 to 0. -/
theorem C8_sample_index_spec (time_s dt : ℚ) (sample_every num_samples : ℤ) :
    (num_samples ≤ 0 → sample_index time_s dt sample_every num_samples = 0) ∧
    (0 < num_samples → dt * ((max sample_every 1 : ℤ) : ℚ) ≤ 0 →
      sample_index time_s dt sample_every num_samples = 0) ∧
    (0 < num_samples → 0 < dt * ((max sample_every 1 : ℤ) : ℚ) →
      sample_index time_s dt sample_every num_samples =
        max 0 (min (pyRound (time_s / (dt * ((max sample_every 1 : ℤ) : ℚ))))
          (num_samples - 1))) ∧
    sample_index 0 1 2 5 = 0 ∧ sample_index 8 1 2 5 = 4 ∧
    sample_index 9 1 2 5 = 4 ∧ sample_index (-1) 1 2 5 = 0 := by
  refine ⟨?_, ?_, ?_, by with_unfolding_all decide, by with_unfolding_all decide,
    by with_unfolding_all decide, by with_unfolding_all decide⟩
  · intro h
    simp only [sample_index]
    rw [if_pos h]
  · intro hn hstep
    simp only [sample_index]
    rw [if_neg (not_le.mpr hn), if_pos hstep]
  · intro hn hstep
    simp only [sample_index]
    rw [if_neg (not_le.mpr hn), if_neg (not_le.mpr hstep)]

/-- C2 evidence: in the encoder-resource trace of render_video, when
frame generation raises at frame 0 of a 1-frame export, the trace
contains the spawn but neither the stdin close nor the process wait;
on the success path both appear, after all frames, in that order. The
claim that the resource is released on every exit path fails on the
error path. -/
theorem C2_encoder_not_released_on_error :
    render_video_ops 1 (fun _ => false) = ([EncoderOp.spawn], false) ∧
    EncoderOp.closeChannel ∉ (render_video_ops 1 (fun _ => false)).1 ∧
    EncoderOp.waitProc ∉ (render_video_ops 1 (fun _ => false)).1 ∧
    render_video_ops 1 (fun _ => true) =
      ([EncoderOp.spawn, EncoderOp.writeFrame 0, EncoderOp.closeChannel,
        EncoderOp.waitProc], true) := by
  refine ⟨rfl, ?_, ?_, rfl⟩ <;> decide

/-- C6 counterexample: with the camera at the origin aimed at (1,0,0)
and fov 90, both points of the trail polyline [(1,0,0), (2,0,0)] have
projected depth at most 0 (-1 and -2), yet render_frame writes the
body's trail color to pixel (2, 2): trail segments are rasterized with
no depth test, so the claim that no pixels are written for primitives
derived from depth <= 0 points is false for trail segment endpoints.
The projected pixel is independent of the tan-half-fov value because
x_cam = y_cam = 0 for both points. -/
theorem C6_counterexample :
    ((project_points sqrtQ tanHalfOne [⟨1, 0, 0⟩, ⟨2, 0, 0⟩] camBehind 4 4).all
      (fun pr => decide (pr.2.2 ≤ 0))) = true ∧
    getPixel (render_frame sqrtQ tanHalfOne colorShaB [bodyBehind] camBehind
      optsTrail none (some trailBehind)) 2 2 = (62, 35, 232) ∧
    ((62, 35, 232) : Color) ≠ ((0, 0, 0) : Color) := by
  refine ⟨by with_unfolding_all decide, by with_unfolding_all decide, by decide⟩

/-- C1 counterexample: with masses 1 and 2 at distance exactly 1, G=1,
no softening, no drag, no thrust, dt=1 and one step, every float
operation of the run is exact (the only square root taken is of 1), and
the total momentum after the run is (1,0,0) while the initial total
momentum is (0,0,0): the accumulate-then-divide gravity scheme changes
total momentum whenever the two masses differ, so the claim fails as
stated even under exact arithmetic, far beyond floating-point
tolerance. -/
theorem C1_counterexample :
    (run_simulation sqrtQ hashIdx stateTwo [] cfgTwo).map
      (fun r => totalMomentum [1, 2] (r.trajectory.velocities.getLastD [])) =
      Except.ok ⟨1, 0, 0⟩ ∧
    (run_simulation sqrtQ hashIdx stateTwo [] cfgTwo).map
      (fun r => totalMomentum [1, 2] (r.trajectory.velocities.headD [])) =
      Except.ok ⟨0, 0, 0⟩ ∧
    (⟨1, 0, 0⟩ : Vec3) ≠ (⟨0, 0, 0⟩ : Vec3) := by
  refine ⟨by with_unfolding_all decide, by with_unfolding_all decide,
    by with_unfolding_all decide⟩

lemma lastD_cons_cons {α : Type} (a b : α) (l : List α) (d : α) :
    (a :: b :: l).getLastD d = (b :: l).getLastD d := by
  simp [List.getLastD_eq_getLast?, List.getLast?_cons_cons]

lemma lastD_mem {α : Type} : ∀ (l : List α) (d : α), l ≠ [] → l.getLastD d ∈ l
  | [a], _, _ => by simp [List.getLastD_eq_getLast?]
  | a :: b :: l, d, _ => by
    rw [lastD_cons_cons]
    exact List.mem_cons_of_mem a (lastD_mem (b :: l) d (by simp))

/-- The index scan of sample_trajectory on a strictly increasing time
list locates the first bracketing index: the least idx with
times[idx] >= time_s, which then satisfies times[idx-1] < time_s. -/
lemma bracketScan_spec (t : ℚ) :
    ∀ (l : List ℚ) (i : ℕ), l.Chain' (· < ·) → l ≠ [] →
      l.headD 0 < t → t ≤ l.getLastD 0 →
      ∃ j, 0 < j ∧ bracketScan t i l = some (i + j) ∧
        l.getD (j - 1) 0 < t ∧ t ≤ l.getD j 0 := by
  intro l
  induction l with
  | nil => intro i _ hne _ _; exact absurd rfl hne
  | cons a rest ih =>
    intro i hch _ hh hl
    have hna : ¬ (t ≤ a) := not_le.mpr (by simpa using hh)
    cases rest with
    | nil => exact absurd (by simpa using hl) hna
    | cons b rest2 =>
      rw [show bracketScan t i (a :: b :: rest2) =
        if t ≤ a then some i else bracketScan t (i + 1) (b :: rest2) from rfl]
      rw [if_neg hna]
      by_cases htb : t ≤ b
      · refine ⟨1, one_pos, ?_, by simpa using hh, by simpa using htb⟩
        rw [show bracketScan t (i + 1) (b :: rest2) =
          if t ≤ b then some (i + 1) else bracketScan t (i + 1 + 1) rest2
          from rfl]
        rw [if_pos htb]
      · have hne2 : rest2 ≠ [] := by
          intro he
          subst he
          exact htb (by simpa [lastD_cons_cons] using hl)
        have hh2 : (b :: rest2).headD 0 < t := by simpa using not_le.mp htb
        have hl2 : t ≤ (b :: rest2).getLastD 0 := by
          simpa [lastD_cons_cons] using hl
        obtain ⟨j, hj, hscan, hgl, hgr⟩ :=
          ih (i + 1) hch.tail (by simp) hh2 hl2
        obtain ⟨k, rfl⟩ : ∃ k, j = k + 1 := ⟨j - 1, by omega⟩
        refine ⟨k + 2, by omega, ?_, ?_, ?_⟩
        · rw [hscan]
          congr 1
          omega
        · simpa using hgl
        · simpa using hgr

/-- C7: for a nonempty trajectory, the continuous sample returns the
first position snapshot when the query time is at most the first
recorded time; the last snapshot when the query time is at least the
last recorded time (times strictly increasing, parallel lengths); and
for a query strictly inside the recorded range it locates the first
index whose recorded time is at least the query time and returns the
per-body per-axis linear interpolation of the bracketing rows with the
floor-guarded fraction; in particular with samples [0,0,0] at t=0 and
[2,0,0] at t=1, sampling at 0.5 gives [1,0,0] and sampling outside
[0,1] gives the respective endpoint. -/
theorem C7_sample_trajectory_spec (traj : Trajectory) (time_s : ℚ) :
    (traj.times ≠ [] → time_s ≤ traj.times.headD 0 →
      sample_trajectory traj time_s = traj.positions.headD []) ∧
    (traj.times ≠ [] → traj.times.Chain' (· < ·) →
      traj.times.length = traj.positions.length →
      traj.times.getLastD 0 ≤ time_s →
      sample_trajectory traj time_s = traj.positions.getLastD []) ∧
    (traj.times ≠ [] → traj.times.Chain' (· < ·) →
      traj.times.headD 0 < time_s → time_s < traj.times.getLastD 0 →
      ∃ idx, 0 < idx ∧ bracketScan time_s 0 traj.times = some idx ∧
        traj.times.getD (idx - 1) 0 < time_s ∧
        time_s ≤ traj.times.getD idx 0 ∧
        sample_trajectory traj time_s = interpRow traj time_s idx) ∧
    sample_trajectory trajLerp (1/2) = [⟨1, 0, 0⟩] ∧
    sample_trajectory trajLerp (-3) = [⟨0, 0, 0⟩] ∧
    sample_trajectory trajLerp 7 = [⟨2, 0, 0⟩] := by
  refine ⟨?_, ?_, ?_, by with_unfolding_all decide,
    by with_unfolding_all decide, by with_unfolding_all decide⟩
  · intro hne hle
    rw [sample_trajectory, if_neg (by simpa using hne), if_pos hle]
  · intro hne hch hlen hlast
    rw [sample_trajectory, if_neg (by simpa using hne)]
    by_cases hle : time_s ≤ traj.times.headD 0
    · rw [if_pos hle]
      rcases htimes : traj.times with _ | ⟨t0, rest⟩
      · exact absurd htimes hne
      rcases rest with _ | ⟨t1, rest2⟩
      · have h1 : traj.positions.length = 1 := by rw [← hlen, htimes]; rfl
        rcases hpos : traj.positions with _ | ⟨row, prest⟩
        · rw [hpos] at h1; simp at h1
        · have h2 : prest = [] := by
            rw [hpos] at h1; simpa using h1
          subst h2
          simp [hpos]
      · exfalso
        have hpw := List.chain'_iff_pairwise.mp (htimes ▸ hch)
        have hmem : (t1 :: rest2).getLastD 0 ∈ t1 :: rest2 :=
          lastD_mem _ _ (by simp)
        have hlt : t0 < (t1 :: rest2).getLastD 0 :=
          (List.pairwise_cons.mp hpw).1 _ hmem
        rw [htimes] at hlast hle
        rw [lastD_cons_cons] at hlast
        simp only [List.headD_cons] at hle
        exact absurd (le_trans hlast hle) (not_le.mpr hlt)
    · rw [if_neg hle, if_pos hlast]
  · intro hne hch hh hl
    obtain ⟨j, hj, hscan, hgl, hgr⟩ :=
      bracketScan_spec time_s traj.times 0 hch hne hh (le_of_lt hl)
    rw [Nat.zero_add] at hscan
    have hnle : ¬ (time_s ≤ traj.times.headD 0) := not_le.mpr hh
    have hnla : ¬ (traj.times.getLastD 0 ≤ time_s) := not_le.mpr hl
    refine ⟨j, hj, hscan, hgl, hgr, ?_⟩
    rw [sample_trajectory, if_neg (by simpa using hne), if_neg hnle,
      if_neg hnla, hscan]

theorem C7_witness :
    sample_trajectory trajLerp (-3) = trajLerp.positions.headD [] ∧
    sample_trajectory trajLerp 7 = trajLerp.positions.getLastD [] ∧
    (∃ idx, 0 < idx ∧ bracketScan (1/2) 0 trajLerp.times = some idx ∧
      trajLerp.times.getD (idx - 1) 0 < 1/2 ∧
      (1/2 : ℚ) ≤ trajLerp.times.getD idx 0 ∧
      sample_trajectory trajLerp (1/2) = interpRow trajLerp (1/2) idx) :=
  ⟨(C7_sample_trajectory_spec trajLerp (-3)).1 (by decide)
      (by with_unfolding_all decide),
   (C7_sample_trajectory_spec trajLerp 7).2.1 (by decide)
      (by norm_num [trajLerp, List.chain'_cons, List.chain'_singleton]) rfl
      (by with_unfolding_all decide),
   (C7_sample_trajectory_spec trajLerp (1/2)).2.2.1 (by decide)
      (by norm_num [trajLerp, List.chain'_cons, List.chain'_singleton])
      (by with_unfolding_all decide) (by with_unfolding_all decide)⟩

/-- The bracketing-pair scan of evaluate finds a pair on any sorted
keyframe list of length at least two that brackets the query time. -/
lemma pairScan_exists :
    ∀ (l : List CameraKeyframe) (t : ℚ),
      l.Chain' (fun a b => a.time_s ≤ b.time_s) →
      (∃ a b rest, l = a :: b :: rest) →
      (l.headD dummyKeyframe).time_s ≤ t →
      t ≤ (l.getLastD dummyKeyframe).time_s →
      ∃ left right, pairScan l t = some (left, right) ∧
        left.time_s ≤ t ∧ t ≤ right.time_s := by
  intro l
  induction l with
  | nil =>
    rintro t _ ⟨a, b, rest, h⟩ _ _
    cases h
  | cons a l ih =>
    rintro t hch ⟨a', b', rest', heq⟩ hh hl
    obtain ⟨b, rest, rfl⟩ : ∃ b rest, l = b :: rest := by
      cases heq
      exact ⟨b', rest', rfl⟩
    by_cases htb : t ≤ b.time_s
    · refine ⟨a, b, ?_, by simpa using hh, htb⟩
      rw [show pairScan (a :: b :: rest) t =
        if a.time_s ≤ t ∧ t ≤ b.time_s then some (a, b)
        else pairScan (b :: rest) t from rfl]
      rw [if_pos ⟨by simpa using hh, htb⟩]
    · have hbt : b.time_s < t := not_le.mp htb
      obtain ⟨c, rest2, rfl⟩ : ∃ c rest2, rest = c :: rest2 := by
        cases rest with
        | nil => exact absurd (by simpa [lastD_cons_cons] using hl) htb
        | cons c r2 => exact ⟨c, r2, rfl⟩
      obtain ⟨left, right, hscan, hlt, hrt⟩ :=
        ih t hch.tail ⟨b, c, rest2, rfl⟩ (le_of_lt hbt)
          (by simpa [lastD_cons_cons] using hl)
      refine ⟨left, right, ?_, hlt, hrt⟩
      rw [show pairScan (a :: b :: c :: rest2) t =
        if a.time_s ≤ t ∧ t ≤ b.time_s then some (a, b)
        else pairScan (b :: c :: rest2) t from rfl]
      rw [if_neg (fun hc => htb hc.2)]
      exact hscan

/-- The sorted keyframe list of evaluate is sorted by time. -/
lemma sortedKeyframes_chain (track : CameraTrack) :
    (sortedKeyframes track).Chain' (fun a b => a.time_s ≤ b.time_s) := by
  have hpw := @List.sorted_mergeSort CameraKeyframe
    (fun a b : CameraKeyframe => a.time_s ≤ b.time_s)
    (fun a b c hab hbc => by
      simp only [decide_eq_true_eq] at hab hbc ⊢
      exact le_trans hab hbc)
    (fun a b => by
      rcases le_total a.time_s b.time_s with h | h <;> simp [h])
    track.keyframes
  exact (hpw.imp (fun h => by simpa using h)).chain'

/-- C9: CameraTrack.evaluate returns the fixed default pose when the
track has no keyframes; otherwise it sorts the keyframes by time with a
stable sort that never mutates the stored list (the model is pure),
clamp-holds before the first and after the last sorted keyframe, and in
between finds the first bracketing pair and linearly interpolates
position, target and fov component-wise (substituting the default fov
for unset keyframe fovs); in particular two keyframes at t=0
(pos (0,0,10), fov 60) and t=10 (pos (10,0,10), fov 90) evaluate at t=5
to pos (5,0,10), fov 75, also when the first fov is unset and defaulted
to 60. -/
theorem C9_camera_evaluate_spec (track : CameraTrack) (time_s : ℚ) :
    (track.keyframes = [] →
      track.evaluate time_s = ⟨⟨0, 0, 50⟩, ⟨0, 0, 0⟩, 60⟩) ∧
    (track.keyframes ≠ [] →
      time_s ≤ ((sortedKeyframes track).headD dummyKeyframe).time_s →
      track.evaluate time_s =
        stateFromKeyframe track ((sortedKeyframes track).headD dummyKeyframe)) ∧
    (track.keyframes ≠ [] →
      ¬ time_s ≤ ((sortedKeyframes track).headD dummyKeyframe).time_s →
      ((sortedKeyframes track).getLastD dummyKeyframe).time_s ≤ time_s →
      track.evaluate time_s =
        stateFromKeyframe track
          ((sortedKeyframes track).getLastD dummyKeyframe)) ∧
    (track.keyframes ≠ [] →
      ((sortedKeyframes track).headD dummyKeyframe).time_s < time_s →
      time_s < ((sortedKeyframes track).getLastD dummyKeyframe).time_s →
      ∃ left right, pairScan (sortedKeyframes track) time_s =
          some (left, right) ∧
        left.time_s ≤ time_s ∧ time_s ≤ right.time_s ∧
        track.evaluate time_s =
          ⟨lerpVec left.position right.position
             ((time_s - left.time_s) /
               max (right.time_s - left.time_s) (1/1000000000)),
           lerpVec left.target right.target
             ((time_s - left.time_s) /
               max (right.time_s - left.time_s) (1/1000000000)),
           (left.fov_deg.getD track.default_fov_deg) +
             ((right.fov_deg.getD track.default_fov_deg) -
               (left.fov_deg.getD track.default_fov_deg)) *
             ((time_s - left.time_s) /
               max (right.time_s - left.time_s) (1/1000000000))⟩) ∧
    trackTwoKf.evaluate 5 = ⟨⟨5, 0, 10⟩, ⟨0, 0, 0⟩, 75⟩ ∧
    trackDefaultFov.evaluate 5 = ⟨⟨5, 0, 10⟩, ⟨0, 0, 0⟩, 75⟩ ∧
    CameraTrack.evaluate ⟨[], 42⟩ 3 = ⟨⟨0, 0, 50⟩, ⟨0, 0, 0⟩, 60⟩ := by
  refine ⟨?_, ?_, ?_, ?_, by with_unfolding_all decide,
    by with_unfolding_all decide, by with_unfolding_all decide⟩
  · intro h
    rw [CameraTrack.evaluate, if_pos (by simp [h])]
  · intro hne hle
    rw [CameraTrack.evaluate, if_neg (by simpa using hne)]
    simp only []
    rw [if_pos hle]
  · intro hne hnle hlast
    rw [CameraTrack.evaluate, if_neg (by simpa using hne)]
    simp only []
    rw [if_neg hnle, if_pos hlast]
  · intro hne hh hl
    have hch := sortedKeyframes_chain track
    have hlen2 : ∃ a b rest, sortedKeyframes track = a :: b :: rest := by
      rcases hs : sortedKeyframes track with _ | ⟨k0, _ | ⟨k1, krest⟩⟩
      · exfalso
        have := List.mergeSort_perm track.keyframes
          (fun a b : CameraKeyframe => a.time_s ≤ b.time_s)
        rw [show track.keyframes.mergeSort
            (fun a b : CameraKeyframe => a.time_s ≤ b.time_s) =
          sortedKeyframes track from rfl, hs] at this
        exact hne (this.nil_eq.symm ▸ rfl)
      · exfalso
        rw [hs] at hh hl
        simp only [List.headD_cons] at hh
        have : (([k0] : List CameraKeyframe).getLastD dummyKeyframe) = k0 := by
          simp [List.getLastD_eq_getLast?]
        rw [this] at hl
        exact absurd (lt_trans hh hl) (lt_irrefl _)
      · exact ⟨k0, k1, krest, rfl⟩
    obtain ⟨left, right, hscan, hlt, hrt⟩ :=
      pairScan_exists (sortedKeyframes track) time_s hch hlen2
        (le_of_lt hh) (le_of_lt hl)
    refine ⟨left, right, hscan, hlt, hrt, ?_⟩
    rw [CameraTrack.evaluate, if_neg (by simpa using hne)]
    simp only []
    rw [if_neg (not_le.mpr hh), if_neg (not_le.mpr hl), hscan]

theorem C9_witness :
    CameraTrack.evaluate ⟨[], 7⟩ 2 = ⟨⟨0, 0, 50⟩, ⟨0, 0, 0⟩, 60⟩ ∧
    trackTwoKf.evaluate (-1) =
      stateFromKeyframe trackTwoKf
        ((sortedKeyframes trackTwoKf).headD dummyKeyframe) ∧
    trackTwoKf.evaluate 11 =
      stateFromKeyframe trackTwoKf
        ((sortedKeyframes trackTwoKf).getLastD dummyKeyframe) ∧
    (∃ left right, pairScan (sortedKeyframes trackTwoKf) 5 =
        some (left, right) ∧
      left.time_s ≤ 5 ∧ (5 : ℚ) ≤ right.time_s ∧
      trackTwoKf.evaluate 5 =
        ⟨lerpVec left.position right.position
           ((5 - left.time_s) / max (right.time_s - left.time_s)
             (1/1000000000)),
         lerpVec left.target right.target
           ((5 - left.time_s) / max (right.time_s - left.time_s)
             (1/1000000000)),
         (left.fov_deg.getD trackTwoKf.default_fov_deg) +
           ((right.fov_deg.getD trackTwoKf.default_fov_deg) -
             (left.fov_deg.getD trackTwoKf.default_fov_deg)) *
           ((5 - left.time_s) / max (right.time_s - left.time_s)
             (1/1000000000))⟩) :=
  ⟨(C9_camera_evaluate_spec ⟨[], 7⟩ 2).1 rfl,
   (C9_camera_evaluate_spec trackTwoKf (-1)).2.1 (by decide)
     (by with_unfolding_all decide),
   (C9_camera_evaluate_spec trackTwoKf 11).2.2.1 (by decide)
     (by with_unfolding_all decide) (by with_unfolding_all decide),
   (C9_camera_evaluate_spec trackTwoKf 5).2.2.2.1 (by decide)
     (by with_unfolding_all decide) (by with_unfolding_all decide)⟩

/-- The marker pass skips nonpositive-depth pairs point by point: the
fold over any mixed pair list equals the fold over only its
positive-depth pairs. -/
lemma markerFold_filter (colorOf : String → Color) (options : RenderOptions) :
    ∀ (l : List (RenderBody × (ℚ × ℚ × ℚ))) (img : Image),
      l.foldl (drawMarkerStep colorOf options) img =
        (l.filter (fun bp => decide (0 < bp.2.2.2))).foldl
          (drawMarkerStep colorOf options) img := by
  intro l
  induction l with
  | nil => intro img; rfl
  | cons hd tl ih =>
    intro img
    rw [List.foldl_cons, List.filter_cons]
    by_cases hpos : 0 < hd.2.2.2
    · rw [if_pos (by simpa using hpos), List.foldl_cons]
      exact ih (drawMarkerStep colorOf options img hd)
    · rw [if_neg (by simpa using hpos),
        show drawMarkerStep colorOf options img hd = img from by
          rw [drawMarkerStep, if_pos (not_lt.mp hpos)]]
      exact ih img

/-- C6 amended: in render_frame, every projected point whose depth is
nonpositive is excluded from marker and label drawing, point by point,
also in mixed scenes: one skipped pair never changes the buffer, and
with trails disabled and no timecode the whole frame equals the marker
pass over exactly the positive-depth (body, projection) pairs, the
projection still being computed for every body. Trail segments, by
contrast, are rasterized without any depth test (see the
counterexample). -/
theorem C6_markers_behind_camera_excluded (sqrtFn tanHalf : ℚ → ℚ)
    (colorOf : String → Color) (bodies : List RenderBody)
    (camera : CameraState) (options : RenderOptions) (time_s : Option ℚ)
    (trails : Option TrailMap)
    (hTrails : options.show_trails = false)
    (hTime : options.show_timecode = false) :
    (∀ (img : Image) (bp : RenderBody × (ℚ × ℚ × ℚ)), bp.2.2.2 ≤ 0 →
      drawMarkerStep colorOf options img bp = img) ∧
    render_frame sqrtFn tanHalf colorOf bodies camera options time_s trails =
      ((bodies.zip (project_points sqrtFn tanHalf
          (bodies.map (fun b => b.position)) camera options.width
          options.height)).filter
        (fun bp => decide (0 < bp.2.2.2))).foldl
        (drawMarkerStep colorOf options)
        (zerosImage options.height options.width) := by
  constructor
  · intro img bp h
    rw [drawMarkerStep, if_pos h]
  · simp only [render_frame]
    by_cases hb : bodies.isEmpty
    · have hnil : bodies = [] := by simpa using hb
      subst hnil
      rw [if_pos hb]
      rfl
    · rw [if_neg hb, if_neg (by simp [hTrails]), markerFold_filter]
      cases time_s with
      | none => rfl
      | some t =>
        rw [hTime]
        simp

theorem C6_witness :
    render_frame sqrtQ tanHalfOne colorShaB [bodyFront, bodyBehind] camBehind
      optsNoTrail none none =
      (([bodyFront, bodyBehind].zip (project_points sqrtQ tanHalfOne
          ([bodyFront, bodyBehind].map (fun b => b.position)) camBehind
          optsNoTrail.width optsNoTrail.height)).filter
        (fun bp => decide (0 < bp.2.2.2))).foldl
        (drawMarkerStep colorShaB optsNoTrail)
        (zerosImage optsNoTrail.height optsNoTrail.width) ∧
    drawMarkerStep colorShaB optsNoTrail (zerosImage 4 4)
      (bodyBehind, (2, 2, -1)) = zerosImage 4 4 :=
  ⟨(C6_markers_behind_camera_excluded sqrtQ tanHalfOne colorShaB
      [bodyFront, bodyBehind] camBehind optsNoTrail none none rfl rfl).2,
   (C6_markers_behind_camera_excluded sqrtQ tanHalfOne colorShaB
      [bodyFront, bodyBehind] camBehind optsNoTrail none none rfl rfl).1
     (zerosImage 4 4) (bodyBehind, (2, 2, -1)) (by norm_num)⟩

lemma except_map_ok {ε α β : Type} {f : α → β} {x : Except ε α} {b : β}
    (h : x.map f = Except.ok b) : ∃ a, x = Except.ok a ∧ b = f a := by
  cases x with
  | error e => simp [Except.map] at h
  | ok a => exact ⟨a, rfl, by simpa [Except.map] using h.symm⟩

/-- Shape of the driver loop output: every successful run appends
exactly remaining+1 samples, with times step_index*dt, (step_index+1)*dt,
and so on. -/
lemma simLoop_ok_shape (sqrtFn : ℚ → ℚ)
    (hashFn : ℕ → List Vec3 → List Vec3 → String) (config : SimulationConfig)
    (masses : List ℚ) (evFn : ℤ → List Event) (idIdx : String → Option ℕ) :
    ∀ (remaining step_index : ℕ) (st : SimArrays) (acc : SimAcc)
      (res : SimAcc),
      simLoop sqrtFn hashFn config masses evFn idIdx remaining step_index st
        acc = Except.ok res →
      res.trajectory.times = acc.trajectory.times ++
        (List.range (remaining + 1)).map
          (fun (k : ℕ) => ((step_index : ℚ) + (k : ℚ)) * config.dt) ∧
      res.trajectory.positions.length =
        acc.trajectory.positions.length + (remaining + 1) ∧
      res.trajectory.velocities.length =
        acc.trajectory.velocities.length + (remaining + 1) ∧
      (config.record_hashes = true →
        res.hashes.length = acc.hashes.length + (remaining + 1)) := by
  intro remaining
  induction remaining with
  | zero =>
    intro si st acc res h
    rw [simLoop] at h
    cases h
    refine ⟨?_, by simp [recordAcc, Trajectory.record],
      by simp [recordAcc, Trajectory.record], ?_⟩
    · simp [recordAcc, Trajectory.record, List.range_succ]
    · intro hrec
      simp [recordAcc, Trajectory.record, hrec]
  | succ r ih =>
    intro si st acc res h
    rw [simLoop] at h
    rcases hev : applyEvents idIdx (evFn (si : ℤ))
        (st, (recordAcc hashFn config si st acc).markers) with msg | stm
    · rw [hev] at h
      exact absurd h (by simp)
    · rw [hev] at h
      obtain ⟨h1, h2, h3, h4⟩ := ih (si + 1) _ _ res h
      refine ⟨?_, ?_, ?_, ?_⟩
      · rw [h1]
        show (recordAcc hashFn config si st acc).trajectory.times ++ _ = _
        simp only [recordAcc, Trajectory.record]
        rw [List.append_assoc]
        congr 1
        rw [List.range_succ_eq_map (r + 1), List.map_cons, List.map_map,
          List.singleton_append]
        congr 1
        · push_cast
          ring
        · apply List.map_congr_left
          intro k _
          simp only [Function.comp_apply]
          push_cast
          ring
      · simp only [recordAcc, Trajectory.record] at h2
        simp at h2 ⊢
        omega
      · simp only [recordAcc, Trajectory.record] at h3
        simp at h3 ⊢
        omega
      · intro hrec
        have h5 := h4 hrec
        simp only [recordAcc, hrec, if_pos] at h5
        simp at h5 ⊢
        omega

lemma getD_map_range (n : ℕ) (f : ℕ → ℚ) (i : ℕ) (h : i < n) :
    ((List.range n).map f).getD i 0 = f i := by
  rw [List.getD_eq_getElem?_getD, List.getElem?_map, List.getElem?_range h]
  rfl

/-- C4: for every run with dt > 0 and steps > 0 that returns a
trajectory, the times, positions and velocities sequences each have
length steps+1, with times[0] = 0 and times[i] = i*dt for every index,
and the hash sequence has the same length when recording is enabled. -/
theorem C4_trajectory_shape (sqrtFn : ℚ → ℚ)
    (hashFn : ℕ → List Vec3 → List Vec3 → String) (state : SystemState)
    (events : List Event) (config : SimulationConfig) (res : SimulationResult)
    (hdt : 0 < config.dt) (hsteps : 0 < config.steps)
    (hok : run_simulation sqrtFn hashFn state events config = Except.ok res) :
    res.trajectory.times.length = config.steps + 1 ∧
    res.trajectory.positions.length = config.steps + 1 ∧
    res.trajectory.velocities.length = config.steps + 1 ∧
    res.trajectory.times.getD 0 0 = 0 ∧
    (∀ i, i < config.steps + 1 →
      res.trajectory.times.getD i 0 = (i : ℚ) * config.dt) ∧
    (config.record_hashes = true → res.hashes.length = config.steps + 1) := by
  rw [run_simulation] at hok
  obtain ⟨acc, hsim, hres⟩ := except_map_ok hok
  obtain ⟨h1, h2, h3, h4⟩ := simLoop_ok_shape _ _ _ _ _ _ _ _ _ _ _ hsim
  subst hres
  simp only [List.nil_append] at h1
  refine ⟨?_, by simpa using h2, by simpa using h3, ?_, ?_, ?_⟩
  · show acc.trajectory.times.length = _
    rw [h1]
    simp
  · show acc.trajectory.times.getD 0 0 = 0
    rw [h1, getD_map_range _ _ _ (by omega)]
    push_cast
    ring
  · intro i hi
    show acc.trajectory.times.getD i 0 = _
    rw [h1, getD_map_range _ _ _ hi]
    push_cast
    ring
  · intro hrec
    simpa using h4 hrec

theorem C4_witness :
    resOne.trajectory.times.length = cfgOne.steps + 1 ∧
    resOne.trajectory.times.getD 0 0 = 0 ∧
    resOne.trajectory.times.getD 1 0 = (1 : ℚ) * cfgOne.dt ∧
    (cfgOne.record_hashes = true →
      resOne.hashes.length = cfgOne.steps + 1) := by
  have h := C4_trajectory_shape sqrtQ hashIdx stateOne [] cfgOne resOne
    (by norm_num [cfgOne]) (by norm_num [cfgOne])
    (by with_unfolding_all decide)
  exact ⟨h.1, h.2.2.2.1, h.2.2.2.2.1 1 (by norm_num [cfgOne]), h.2.2.2.2.2⟩

lemma applyEvent_bad (idIdx : String → Option ℕ)
    (st : SimArrays × List CameraMarker) (e : Event) (bid : String)
    (hbid : eventBodyId? e = some bid) (hnone : idIdx bid = none) :
    applyEvent idIdx st e = Except.error ("KeyError: " ++ bid) := by
  cases e with
  | impulse i t b dv =>
    simp only [eventBodyId?, Option.some.injEq] at hbid
    subst hbid
    simp [applyEvent, hnone]
  | thrustChange i t b th =>
    simp only [eventBodyId?, Option.some.injEq] at hbid
    subst hbid
    simp [applyEvent, hnone]
  | cameraMarker i t lb => simp [eventBodyId?] at hbid

lemma applyEvents_error (idIdx : String → Option ℕ) :
    ∀ (evs : List Event) (st : SimArrays × List CameraMarker) (e : Event)
      (bid : String), e ∈ evs → eventBodyId? e = some bid →
      idIdx bid = none →
      ∃ msg, applyEvents idIdx evs st = Except.error msg := by
  intro evs
  induction evs with
  | nil =>
    intro st e bid he
    cases he
  | cons hd tl ih =>
    intro st e bid he hbid hnone
    cases he with
    | head =>
      refine ⟨"KeyError: " ++ bid, ?_⟩
      rw [applyEvents, applyEvent_bad idIdx st hd bid hbid hnone]
    | tail _ hmem =>
      cases happ : applyEvent idIdx st hd with
      | error m =>
        refine ⟨m, ?_⟩
        rw [applyEvents, happ]
      | ok st2 =>
        obtain ⟨m, hm⟩ := ih st2 e bid hmem hbid hnone
        refine ⟨m, ?_⟩
        rw [applyEvents, happ]
        exact hm

lemma simLoop_error_of_bad (sqrtFn : ℚ → ℚ)
    (hashFn : ℕ → List Vec3 → List Vec3 → String) (config : SimulationConfig)
    (masses : List ℚ) (evFn : ℤ → List Event) (idIdx : String → Option ℕ)
    (e : Event) (bid : String) (hbid : eventBodyId? e = some bid)
    (hnone : idIdx bid = none) :
    ∀ (remaining si : ℕ) (st : SimArrays) (acc : SimAcc) (k : ℕ),
      si ≤ k → k < si + remaining → e ∈ evFn (k : ℤ) →
      ∃ msg, simLoop sqrtFn hashFn config masses evFn idIdx remaining si st
        acc = Except.error msg := by
  intro remaining
  induction remaining with
  | zero =>
    intro si st acc k h1 h2 _
    exact absurd h2 (by omega)
  | succ r ih =>
    intro si st acc k hk1 hk2 hmem
    rw [simLoop]
    by_cases hsk : k = si
    · subst hsk
      obtain ⟨m, hm⟩ := applyEvents_error idIdx (evFn (k : ℤ))
        (st, (recordAcc hashFn config k st acc).markers) e bid hmem hbid hnone
      rw [hm]
      exact ⟨m, rfl⟩
    · cases hev : applyEvents idIdx (evFn (si : ℤ))
          (st, (recordAcc hashFn config si st acc).markers) with
      | error m => exact ⟨m, rfl⟩
      | ok stm => exact ih (si + 1) _ _ k (by omega) (by omega) hmem

lemma findIdx?_none {α : Type} (p : α → Bool) :
    ∀ (l : List α) (i : ℕ), (∀ x ∈ l, p x = false) →
      l.findIdx? p i = none := by
  intro l
  induction l with
  | nil => intro i _; rfl
  | cons a tl ih =>
    intro i h
    have h0 : p a = false := h a (by simp)
    rw [List.findIdx?, h0]
    show List.findIdx? p tl (i + 1) = none
    exact ih (i + 1) (fun x hx => h x (List.mem_cons_of_mem a hx))

lemma collect_ids : ∀ (l : List BodyData) (acc : List BodyData) (x : BodyData),
    x ∈ l.foldl dictInsert acc →
    x.id ∈ acc.map BodyData.id ∨ x.id ∈ l.map BodyData.id := by
  intro l
  induction l with
  | nil =>
    intro acc x h
    exact Or.inl (List.mem_map_of_mem _ h)
  | cons b tl ih =>
    intro acc x h
    rcases ih (dictInsert acc b) x h with h1 | h1
    · rw [dictInsert] at h1
      by_cases hc : acc.any (fun a => a.id = b.id)
      · rw [if_pos hc, List.map_map] at h1
        obtain ⟨y, hy, hxy⟩ := List.mem_map.mp h1
        by_cases hyb : y.id = b.id
        · right
          simp only [Function.comp_apply, if_pos hyb] at hxy
          simp [← hxy]
        · left
          simp only [Function.comp_apply, if_neg hyb] at hxy
          rw [← hxy]
          exact List.mem_map_of_mem _ hy
      · rw [if_neg hc, List.map_append] at h1
        rcases List.mem_append.mp h1 with h2 | h2
        · exact Or.inl h2
        · right
          simp at h2
          simp [h2]
    · right
      exact List.mem_cons_of_mem _ h1

lemma order_id_none (state : SystemState) (bid : String)
    (h : ∀ b ∈ state.bodies, b.id ≠ bid) :
    (build_body_order ((collectBodies state).map (fun b => b.id))).findIdx?
      (fun o => o = bid) = none := by
  apply findIdx?_none
  intro x hx
  rw [build_body_order] at hx
  obtain ⟨bod, hbod, rfl⟩ := List.mem_map.mp (List.mem_mergeSort.mp hx)
  have h2 := collect_ids state.bodies [] bod hbod
  simp only [List.map_nil, List.not_mem_nil, false_or] at h2
  obtain ⟨c, hc, hcid⟩ := List.mem_map.mp h2
  exact decide_eq_false (fun heq => h c hc (hcid ▸ heq))

lemma applyEvents_ok_ids (idIdx : String → Option ℕ) :
    ∀ (evs : List Event) (st : SimArrays × List CameraMarker)
      (res : SimArrays × List CameraMarker),
      applyEvents idIdx evs st = Except.ok res →
      ∀ e ∈ evs, ∀ bid, eventBodyId? e = some bid → idIdx bid ≠ none := by
  intro evs
  induction evs with
  | nil =>
    intro st res _ e he
    cases he
  | cons hd tl ih =>
    intro st res h e he bid hbid hnone
    rw [applyEvents] at h
    rcases happ : applyEvent idIdx st hd with m | st2 <;> rw [happ] at h
    · exact Except.noConfusion h
    · cases he with
      | head =>
        have hbad := applyEvent_bad idIdx st hd bid hbid hnone
        rw [hbad] at happ
        exact Except.noConfusion happ
      | tail _ hmem => exact ih st2 res h e hmem bid hbid hnone

lemma simLoop_ok_ids (sqrtFn : ℚ → ℚ)
    (hashFn : ℕ → List Vec3 → List Vec3 → String) (config : SimulationConfig)
    (masses : List ℚ) (evFn : ℤ → List Event) (idIdx : String → Option ℕ) :
    ∀ (remaining si : ℕ) (st : SimArrays) (acc res : SimAcc),
      simLoop sqrtFn hashFn config masses evFn idIdx remaining si st acc =
        Except.ok res →
      ∀ (k : ℕ), si ≤ k → k < si + remaining →
      ∀ e ∈ evFn (k : ℤ), ∀ bid, eventBodyId? e = some bid →
      idIdx bid ≠ none := by
  intro remaining
  induction remaining with
  | zero =>
    intro si st acc res _ k hk1 hk2
    exact absurd hk2 (by omega)
  | succ r ih =>
    intro si st acc res h k hk1 hk2 e hmem bid hbid hnone
    rw [simLoop] at h
    rcases hev : applyEvents idIdx (evFn (si : ℤ))
        (st, (recordAcc hashFn config si st acc).markers) with m | stm
      <;> rw [hev] at h
    · exact Except.noConfusion h
    · by_cases hsk : k = si
      · subst hsk
        exact applyEvents_ok_ids idIdx _ _ _ hev e hmem bid hbid hnone
      · exact ih (si + 1) _ _ res h k (by omega) (by omega) e hmem
          bid hbid hnone

/-- C5: if any scheduled Impulse or ThrustChange event references a
body id that is not present in the SystemState and discretizes to a
step index inside [0, steps), the whole run aborts with an error (the
KeyError of the id_to_index lookup) and no partial trajectory is
returned — the Except.error result carries no SimulationResult, and
the event is never skipped silently. -/
theorem C5_unknown_body_aborts (sqrtFn : ℚ → ℚ)
    (hashFn : ℕ → List Vec3 → List Vec3 → String) (state : SystemState)
    (events : List Event) (config : SimulationConfig)
    (h : ∃ e ∈ events, ∃ bid, eventBodyId? e = some bid ∧
      (∀ b ∈ state.bodies, b.id ≠ bid) ∧
      0 ≤ eventStepIndex e config.dt ∧
      eventStepIndex e config.dt < (config.steps : ℤ)) :
    ∃ msg, run_simulation sqrtFn hashFn state events config =
      Except.error msg := by
  obtain ⟨e, hmem, bid, hbid, hunk, hge, hlt⟩ := h
  rcases hrun : run_simulation sqrtFn hashFn state events config with msg | res
  · exact ⟨msg, rfl⟩
  · exfalso
    rw [run_simulation] at hrun
    obtain ⟨acc, hsim, _⟩ := except_map_ok hrun
    have hk : (((eventStepIndex e config.dt).toNat : ℕ) : ℤ) =
        eventStepIndex e config.dt := Int.toNat_of_nonneg hge
    have hmem2 : e ∈ events_at events config.dt
        (((eventStepIndex e config.dt).toNat : ℕ) : ℤ) := by
      rw [events_at]
      apply List.mem_mergeSort.mpr
      exact List.mem_filter.mpr ⟨hmem, by simp [hk]⟩
    have happ := simLoop_ok_ids _ _ _ _ _ _ _ _ _ _ _ hsim
      (eventStepIndex e config.dt).toNat (by omega) (by omega) e hmem2 bid hbid
    exact happ (order_id_none state bid hunk)

theorem C5_witness :
    ∃ msg, run_simulation sqrtQ hashIdx stateOne
      [Event.impulse "e1" 0 "zz" ⟨1, 0, 0⟩] cfgOne = Except.error msg :=
  C5_unknown_body_aborts sqrtQ hashIdx stateOne
    [Event.impulse "e1" 0 "zz" ⟨1, 0, 0⟩] cfgOne
    ⟨Event.impulse "e1" 0 "zz" ⟨1, 0, 0⟩, by simp, "zz", rfl,
     by with_unfolding_all decide, by with_unfolding_all decide,
     by with_unfolding_all decide⟩

lemma simLoop_congr (sqrtFn : ℚ → ℚ)
    (hashFn : ℕ → List Vec3 → List Vec3 → String) (config : SimulationConfig)
    (masses : List ℚ) (idIdx : String → Option ℕ)
    (f g : ℤ → List Event) :
    ∀ (remaining si : ℕ) (st : SimArrays) (acc : SimAcc),
      (∀ k : ℕ, si ≤ k → k < si + remaining → f (k : ℤ) = g (k : ℤ)) →
      simLoop sqrtFn hashFn config masses f idIdx remaining si st acc =
        simLoop sqrtFn hashFn config masses g idIdx remaining si st acc := by
  intro remaining
  induction remaining with
  | zero => intro si st acc _; rfl
  | succ r ih =>
    intro si st acc h
    rw [simLoop, simLoop, h si (le_refl si) (by omega)]
    rcases hev : applyEvents idIdx (g (si : ℤ))
        (st, (recordAcc hashFn config si st acc).markers) with m | stm
    · rfl
    · exact ih (si + 1) _ _ (fun k hk1 hk2 => h k (by omega) (by omega))

/-- C10: an event whose continuous time discretizes (round to nearest,
ties to even) to a step index that is negative or at least `steps`
is never applied: removing it from the event list leaves the entire
result of run_simulation — trajectory, hash sequence and camera-marker
list — bit-identical, because the driver breaks out of the loop at
step_index == steps before processing that step's events and never
queries negative indices. -/
theorem C10_out_of_range_events_ignored (sqrtFn : ℚ → ℚ)
    (hashFn : ℕ → List Vec3 → List Vec3 → String) (state : SystemState)
    (config : SimulationConfig) (pre post : List Event) (e : Event)
    (h : eventStepIndex e config.dt < 0 ∨
      (config.steps : ℤ) ≤ eventStepIndex e config.dt) :
    run_simulation sqrtFn hashFn state (pre ++ e :: post) config =
      run_simulation sqrtFn hashFn state (pre ++ post) config := by
  simp only [run_simulation]
  congr 1
  apply simLoop_congr
  intro k hk1 hk2
  rw [events_at, events_at]
  congr 1
  rw [List.filter_append, List.filter_append, List.filter_cons,
    if_neg (by simp only [decide_eq_true_eq]; omega)]

theorem C10_witness :
    run_simulation sqrtQ hashIdx stateOne
      ([] ++ Event.impulse "e1" 5 "zz" ⟨1, 0, 0⟩ :: []) cfgOne =
    run_simulation sqrtQ hashIdx stateOne ([] ++ []) cfgOne :=
  C10_out_of_range_events_ignored sqrtQ hashIdx stateOne cfgOne [] []
    (Event.impulse "e1" 5 "zz" ⟨1, 0, 0⟩)
    (Or.inr (by with_unfolding_all decide))

theorem C8_witness :
    sample_index 3 1 2 0 = 0 ∧ sample_index 3 0 2 5 = 0 ∧
    sample_index 9 1 2 5 =
      max 0 (min (pyRound (9 / ((1 : ℚ) * ((max 2 1 : ℤ) : ℚ)))) (5 - 1)) :=
  ⟨(C8_sample_index_spec 3 1 2 0).1 (by decide),
   (C8_sample_index_spec 3 0 2 5).2.1 (by decide)
     (by with_unfolding_all decide),
   (C8_sample_index_spec 9 1 2 5).2.2.1 (by decide)
     (by with_unfolding_all decide)⟩

lemma gravity_two_sum (sqrtFn : ℚ → ℚ) (s : GravitySettings) (p0 p1 : Vec3)
    (m : ℚ) (hm : m ≠ 0) :
    ∃ g0 g1, compute_gravity_acceleration sqrtFn [p0, p1] [m, m] s =
      [g0, g1] ∧ g0 + g1 = Vec3.zero := by
  unfold compute_gravity_acceleration
  norm_num [List.range_succ, gravityPairStep]
  split_ifs with hd
  · refine ⟨_, _, rfl, ?_⟩
    simp [Vec3.divScalar, Vec3.zero, Vec3.add_def]
  · refine ⟨_, _, rfl, ?_⟩
    simp only [Vec3.divScalar, Vec3.zero, Vec3.add_def, Vec3.sub_def,
      Vec3.smul, Vec3.mk.injEq]
    norm_num
    refine ⟨?_, ?_, ?_⟩ <;> field_simp

lemma advance_two_equal (sqrtFn : ℚ → ℚ) (config : SimulationConfig) (m : ℚ)
    (hm : m ≠ 0) (hdrag : config.drag_coefficient = 0)
    (p0 p1 v0 v1 : Vec3) :
    ∃ p0' p1' v0' v1',
      advanceArrays sqrtFn config [m, m]
        ⟨[p0, p1], [v0, v1], [Vec3.zero, Vec3.zero]⟩ =
        ⟨[p0', p1'], [v0', v1'], [Vec3.zero, Vec3.zero]⟩ ∧
      v0' + v1' = v0 + v1 := by
  obtain ⟨g0, g1, hg, hsum⟩ := gravity_two_sum sqrtFn config.gravity p0 p1 m hm
  simp only [advanceArrays, hg, compute_thrust_acceleration,
    compute_linear_drag_acceleration, hdrag, eulerStep]
  norm_num [List.zipWith]
  refine ⟨_, _, _, _, ⟨⟨rfl, rfl⟩, rfl, rfl⟩, ?_⟩
  simp only [Vec3.add_def, Vec3.zero, Vec3.mk.injEq] at hsum
  simp only [Vec3.add_def, Vec3.smul, Vec3.divScalar, Vec3.zero, Vec3.mk.injEq]
  obtain ⟨hx, hy, hz⟩ := hsum
  refine ⟨?_, ?_, ?_⟩
  · field_simp
    linear_combination config.dt * hx
  · field_simp
    linear_combination config.dt * hy
  · field_simp
    linear_combination config.dt * hz

lemma totalMomentum_two (m : ℚ) (a b : Vec3) :
    totalMomentum [m, m] [a, b] = Vec3.smul m a + Vec3.smul m b := by
  show (Vec3.zero + Vec3.smul m a) + Vec3.smul m b = _
  rw [Vec3.zero_add']

lemma simLoop_two_equal_mass (sqrtFn : ℚ → ℚ)
    (hashFn : ℕ → List Vec3 → List Vec3 → String) (config : SimulationConfig)
    (idIdx : String → Option ℕ) (m : ℚ) (hm : m ≠ 0)
    (hdrag : config.drag_coefficient = 0) :
    ∀ (remaining si : ℕ) (p0 p1 v0 v1 : Vec3) (acc : SimAcc),
      ∃ res, simLoop sqrtFn hashFn config [m, m]
          (fun k => events_at [] config.dt k) idIdx remaining si
          ⟨[p0, p1], [v0, v1], [Vec3.zero, Vec3.zero]⟩ acc = Except.ok res ∧
        ∃ rows, res.trajectory.velocities =
            acc.trajectory.velocities ++ rows ∧
          rows ≠ [] ∧ rows.headD [] = [v0, v1] ∧
          (∀ row ∈ rows, ∃ w0 w1, row = [w0, w1] ∧ w0 + w1 = v0 + v1) := by
  intro remaining
  induction remaining with
  | zero =>
    intro si p0 p1 v0 v1 acc
    refine ⟨_, by rw [simLoop], [[v0, v1]], ?_, by simp, by simp, ?_⟩
    · simp [recordAcc, Trajectory.record]
    · rintro row hr
      simp only [List.mem_singleton] at hr
      subst hr
      exact ⟨v0, v1, rfl, rfl⟩
  | succ r ih =>
    intro si p0 p1 v0 v1 acc
    obtain ⟨q0, q1, w0, w1, hadv, hw⟩ :=
      advance_two_equal sqrtFn config m hm hdrag p0 p1 v0 v1
    obtain ⟨res, hres, rows, hrows, hne, hhead, hall⟩ := ih (si + 1) q0 q1 w0 w1
      (recordAcc hashFn config si
        ⟨[p0, p1], [v0, v1], [Vec3.zero, Vec3.zero]⟩ acc)
    refine ⟨res, ?_, [v0, v1] :: rows, ?_, by simp, by simp, ?_⟩
    · rw [simLoop]
      rw [show events_at [] config.dt (si : ℤ) = [] from by
        simp [events_at]]
      show simLoop sqrtFn hashFn config [m, m]
        (fun k => events_at [] config.dt k) idIdx r (si + 1)
        (advanceArrays sqrtFn config [m, m]
          ⟨[p0, p1], [v0, v1], [Vec3.zero, Vec3.zero]⟩)
        (recordAcc hashFn config si
          ⟨[p0, p1], [v0, v1], [Vec3.zero, Vec3.zero]⟩ acc) = Except.ok res
      rw [hadv]
      exact hres
    · rw [hrows]
      simp [recordAcc, Trajectory.record]
    · rintro row hr
      rcases List.mem_cons.mp hr with h1 | h1
      · exact ⟨v0, v1, h1, rfl⟩
      · obtain ⟨a0, a1, ha, hsum⟩ := hall row h1
        exact ⟨a0, a1, ha, by rw [hsum, hw]⟩

lemma momentum_rows (m : ℚ) (a b : Vec3) (rows : List (List Vec3))
    (hne : rows ≠ []) (hhead : rows.headD [] = [a, b])
    (hall : ∀ row ∈ rows, ∃ w0 w1, row = [w0, w1] ∧ w0 + w1 = a + b) :
    totalMomentum [m, m] (rows.headD []) = Vec3.smul m a + Vec3.smul m b ∧
    totalMomentum [m, m] (rows.getLastD []) =
      Vec3.smul m a + Vec3.smul m b := by
  constructor
  · rw [hhead, totalMomentum_two]
  · obtain ⟨w0, w1, hrow, hsum⟩ := hall _ (lastD_mem rows [] hne)
    rw [hrow, totalMomentum_two, ← Vec3.smul_dist, hsum, Vec3.smul_dist]

/-- C1 amended: for a two-body scenario with positive EQUAL masses,
distinct ids, nonzero initial separation, zero drag and thrust, and no
events, the run succeeds and total momentum (sum of mass times velocity)
is exactly conserved under exact arithmetic: the last recorded velocity
row carries the same total momentum m*v0 + m*v1 as the first. With
unequal masses the accumulate-then-divide gravity scheme breaks
conservation (see the counterexample), so equality of the two masses is
the amendment the counterexample forces. -/
theorem C1_two_body_momentum_equal_masses (sqrtFn : ℚ → ℚ)
    (hashFn : ℕ → List Vec3 → List Vec3 → String) (id0 id1 : String)
    (m : ℚ) (p0 p1 v0 v1 : Vec3) (config : SimulationConfig)
    (hm : 0 < m) (hids : id0 ≠ id1) (hsep : p0 ≠ p1)
    (hdrag : config.drag_coefficient = 0) (hsteps : 0 < config.steps) :
    ∃ res, run_simulation sqrtFn hashFn
        ⟨[⟨id0, m, p0, v0, Vec3.zero⟩, ⟨id1, m, p1, v1, Vec3.zero⟩]⟩ []
        config = Except.ok res ∧
      totalMomentum [m, m] (res.trajectory.velocities.headD []) =
        Vec3.smul m v0 + Vec3.smul m v1 ∧
      totalMomentum [m, m] (res.trajectory.velocities.getLastD []) =
        Vec3.smul m v0 + Vec3.smul m v1 := by
  have hm0 : m ≠ 0 := ne_of_gt hm
  have hids' : id1 ≠ id0 := Ne.symm hids
  simp only [run_simulation]
  have hcol : collectBodies
      ⟨[⟨id0, m, p0, v0, Vec3.zero⟩, ⟨id1, m, p1, v1, Vec3.zero⟩]⟩ =
      [⟨id0, m, p0, v0, Vec3.zero⟩, ⟨id1, m, p1, v1, Vec3.zero⟩] := by
    simp [collectBodies, dictInsert, hids]
  rw [hcol]
  rw [show List.map (fun b => b.id)
      [(⟨id0, m, p0, v0, Vec3.zero⟩ : BodyData),
       ⟨id1, m, p1, v1, Vec3.zero⟩] = [id0, id1] from rfl]
  obtain ⟨x, y, hxy⟩ : ∃ x y, build_body_order [id0, id1] = [x, y] := by
    have hlen : (build_body_order [id0, id1]).length = 2 := by
      simp [build_body_order]
    rcases ho : build_body_order [id0, id1] with _ | ⟨a, _ | ⟨b, rest⟩⟩
    · rw [ho] at hlen; simp at hlen
    · rw [ho] at hlen; simp at hlen
    · rw [ho] at hlen
      simp at hlen
      exact ⟨a, b, by rw [hlen]⟩
  have hmem : ∀ z ∈ [x, y], z = id0 ∨ z = id1 := by
    intro z hz
    have h2 : z ∈ build_body_order [id0, id1] := by rw [hxy]; exact hz
    simpa using List.mem_mergeSort.mp h2
  have hnd : x ≠ y := by
    have hnd2 : (build_body_order [id0, id1]).Nodup :=
      (List.mergeSort_perm [id0, id1] (fun a b => a ≤ b)).nodup_iff.mpr
        (by simp [hids])
    rw [hxy] at hnd2
    simp at hnd2
    exact hnd2
  rw [hxy]
  simp only [List.map_cons, List.map_nil]
  have hl0p : (((List.filter (fun b => b.id = id0)
      [(⟨id0, m, p0, v0, Vec3.zero⟩ : BodyData),
       ⟨id1, m, p1, v1, Vec3.zero⟩]).headD
      ⟨id0, 0, Vec3.zero, Vec3.zero, Vec3.zero⟩)) =
      ⟨id0, m, p0, v0, Vec3.zero⟩ := by
    simp [List.filter, hids']
  have hl1p : (((List.filter (fun b => b.id = id1)
      [(⟨id0, m, p0, v0, Vec3.zero⟩ : BodyData),
       ⟨id1, m, p1, v1, Vec3.zero⟩]).headD
      ⟨id1, 0, Vec3.zero, Vec3.zero, Vec3.zero⟩)) =
      ⟨id1, m, p1, v1, Vec3.zero⟩ := by
    simp [List.filter, hids]
  rcases hmem x (by simp) with hx | hx
  · rcases hmem y (by simp) with hy | hy
    · exact absurd (hx.trans hy.symm) hnd
    · rw [hx, hy, hl0p, hl1p]
      obtain ⟨res, hres, rows, hrows, hne, hhead, hall⟩ :=
        simLoop_two_equal_mass sqrtFn hashFn config
          (fun bid => List.findIdx? (fun o => o = bid) [id0, id1]) m hm0 hdrag
          config.steps 0 p0 p1 v0 v1
          ⟨⟨[id0, id1], [], [], []⟩, [], []⟩
      rw [hres]
      obtain ⟨hA, hB⟩ := momentum_rows m v0 v1 rows hne hhead hall
      refine ⟨_, rfl, ?_, ?_⟩
      · show totalMomentum [m, m] (res.trajectory.velocities.headD []) = _
        rw [hrows]
        simpa using hA
      · show totalMomentum [m, m] (res.trajectory.velocities.getLastD []) = _
        rw [hrows]
        simpa using hB
  · rcases hmem y (by simp) with hy | hy
    · rw [hx, hy, hl0p, hl1p]
      obtain ⟨res, hres, rows, hrows, hne, hhead, hall⟩ :=
        simLoop_two_equal_mass sqrtFn hashFn config
          (fun bid => List.findIdx? (fun o => o = bid) [id1, id0]) m hm0 hdrag
          config.steps 0 p1 p0 v1 v0
          ⟨⟨[id1, id0], [], [], []⟩, [], []⟩
      rw [hres]
      obtain ⟨hA, hB⟩ := momentum_rows m v1 v0 rows hne hhead hall
      rw [Vec3.add_comm' (Vec3.smul m v1) (Vec3.smul m v0)] at hA hB
      refine ⟨_, rfl, ?_, ?_⟩
      · show totalMomentum [m, m] (res.trajectory.velocities.headD []) = _
        rw [hrows]
        simpa using hA
      · show totalMomentum [m, m] (res.trajectory.velocities.getLastD []) = _
        rw [hrows]
        simpa using hB
    · exact absurd (hx.trans hy.symm) hnd

theorem C1_witness :
    ∃ res, run_simulation sqrtQ hashIdx
        ⟨[⟨"a", 3, ⟨0, 0, 0⟩, ⟨0, 0, 0⟩, Vec3.zero⟩,
          ⟨"b", 3, ⟨1, 0, 0⟩, ⟨0, 0, 0⟩, Vec3.zero⟩]⟩ []
        ⟨1, 1, ⟨1, 0⟩, 0, false⟩ = Except.ok res ∧
      totalMomentum [3, 3] (res.trajectory.velocities.headD []) =
        Vec3.smul 3 ⟨0, 0, 0⟩ + Vec3.smul 3 ⟨0, 0, 0⟩ ∧
      totalMomentum [3, 3] (res.trajectory.velocities.getLastD []) =
        Vec3.smul 3 ⟨0, 0, 0⟩ + Vec3.smul 3 ⟨0, 0, 0⟩ :=
  C1_two_body_momentum_equal_masses sqrtQ hashIdx "a" "b" 3
    ⟨0, 0, 0⟩ ⟨1, 0, 0⟩ ⟨0, 0, 0⟩ ⟨0, 0, 0⟩ ⟨1, 1, ⟨1, 0⟩, 0, false⟩
    (by norm_num) (by decide) (by with_unfolding_all decide) rfl
    (by decide)
